import Mathlib

/-!
Verification of the `chatapi-single` repository (`src/chatgpt/index.js`).

The development shallowly embeds the pieces of the source that the claims
are about:

* the bundled server-sent-event decoder `createParser2` (its `feed` and
  `parseEventStreamLine` functions), working over `List Char`;
* the cancelable deadline wrapper `pTimeout2`;
* the `browserPostEventStream` pipeline (fetch outcome, stream processing
  via the decoder, `onMessage` payload handling, promise settlement and the
  surrounding try/catch);
* the `onMessage` handler of `ChatGPTAPI.sendMessage`;
* the retry/re-authentication loop of `ChatGPTAPIBrowser.sendMessage`;
* a spec-modelled single-slot credential cache (the external `expiry-map`
  dependency) together with the cache-consulting prefix of
  `ChatGPTAPI.refreshSession`.

JavaScript strings are embedded as `List Char`, JavaScript numbers used as
millisecond durations are embedded as `Int` (with explicit `nan` and
`Infinity` representatives where the source distinguishes them), and
asynchronous control flow is embedded as explicit state passing over
scripted transports.  Promise settlement is first-wins and latched; a
rejection raised inside the `async` executor of a `new Promise` does not
settle that promise (it is lost), which the embedding mirrors with an
explicit "never settles" outcome.
-/

set_option maxHeartbeats 1000000

/-- ParseEvent is the output alphabet of the decoder: the `onParse` sink of
`createParser2` receives either a parsed event (with optional id, optional
event name and data text) or a reconnect-interval notification from a
`retry:` line. -/
inductive ParseEvent where
  | event (id : Option (List Char)) (name : Option (List Char)) (data : List Char)
  | reconnectInterval (value : Int)
  deriving DecidableEq, Repr

/-- EvState is the per-event accumulation state of the decoder: the pending
`eventId`, `eventName` and `data` variables of `createParser2`. -/
structure EvState where
  eventId : Option (List Char)
  eventName : Option (List Char)
  data : List Char
  deriving DecidableEq, Repr

/-- PState is the full mutable state of one `createParser2` instance:
`isFirstChunk`, `buffer`, `startingPosition`, `startingFieldLength` and the
event accumulation state. -/
structure PState where
  isFirstChunk : Bool
  buffer : List Char
  startingPosition : Nat
  startingFieldLength : Int
  ev : EvState
  deriving DecidableEq, Repr

/-- hasBom mirrors the `hasBom` helper: it checks whether the first three
characters of the buffer have the char codes 239, 187, 191 (`BOM`); an
out-of-bounds `charCodeAt` yields `NaN`, which compares unequal, so a
buffer shorter than three characters never matches. -/
def hasBom : List Char → Bool
  | a :: b :: c :: _ => a.toNat == 239 && b.toNat == 187 && c.toNat == 191
  | _ => false

/-- jsDigitsToInt folds a nonempty list of decimal digits to a number;
`none` when the list is empty (no digits at all makes `parseInt` return
`NaN`). -/
def jsDigitsToInt : List Char → Option Nat
  | [] => none
  | ds => some (ds.foldl (fun a c => a * 10 + (c.toNat - 48)) 0)

/-- jsParseInt models `parseInt(value, 10)` on the strings the decoder can
pass it: optional leading whitespace, an optional sign, then leading
decimal digits; `none` stands for `NaN`. -/
def jsParseInt (l : List Char) : Option Int :=
  let l := l.dropWhile (fun c => c = ' ' ∨ c = '\t' ∨ c = '\n' ∨ c = '\r')
  match l with
  | '-' :: rest => (jsDigitsToInt (rest.takeWhile Char.isDigit)).map (fun n => -(n : Int))
  | '+' :: rest => (jsDigitsToInt (rest.takeWhile Char.isDigit)).map (fun n => (n : Int))
  | _ => (jsDigitsToInt (l.takeWhile Char.isDigit)).map (fun n => (n : Int))

/-- jsSlice models `String.prototype.slice` for the non-negative index
pairs the decoder uses. -/
def jsSlice (l : List Char) (a b : Nat) : List Char :=
  (l.take b).drop a

/-- emitName models the `eventName || undefined` conversion at dispatch: an
empty pending event name is emitted as absent. -/
def emitName : Option (List Char) → Option (List Char)
  | some n => if n = [] then none else some n
  | none => none

/-- applyField is the field dispatch tail of `parseEventStreamLine`: the
`data`/`event`/`id`/`retry` branches acting on the accumulation state. -/
def applyField (field value : List Char) (st : EvState) : EvState × List ParseEvent :=
  if field = "data".toList then
    ({ st with data := st.data ++ (if value ≠ [] then value ++ ['\n'] else ['\n']) }, [])
  else if field = "event".toList then
    ({ st with eventName := some value }, [])
  else if field = "id".toList ∧ ¬ value.contains (Char.ofNat 0) then
    ({ st with eventId := some value }, [])
  else if field = "retry".toList then
    match jsParseInt value with
    | some retry => (st, [ParseEvent.reconnectInterval retry])
    | none => (st, [])
  else (st, [])

/-- parseEventStreamLine mirrors the source function of the same name: a
blank line dispatches the accumulated event (clearing the pending id only
then) and unconditionally resets the pending event name; otherwise the
field name and value are cut out of the buffer using `fieldLength` and the
optional single space after the colon is stripped. -/
def parseEventStreamLine (lineBuffer : List Char) (index : Nat)
    (fieldLength lineLength : Int) (st : EvState) : EvState × List ParseEvent :=
  if lineLength = 0 then
    if st.data.length > 0 then
      ({ eventId := none, eventName := none, data := [] },
        [ParseEvent.event st.eventId (emitName st.eventName) st.data.dropLast])
    else
      ({ st with eventName := none }, [])
  else
    let noValue := fieldLength < 0
    let field := jsSlice lineBuffer index
      (index + (if noValue then lineLength.toNat else fieldLength.toNat))
    let step : Int :=
      if noValue then lineLength
      else if lineBuffer.getD (index + fieldLength.toNat + 1) (Char.ofNat 0) = ' ' then
        fieldLength + 2
      else fieldLength + 1
    let valuePosition := index + step.toNat
    let value := jsSlice lineBuffer valuePosition (valuePosition + (lineLength - step).toNat)
    applyField field value st

/-- scanLine is the inner `for` loop of `feed`: starting at
`startingPosition` it looks for the first line terminator, remembering in
`fieldLength` the first `:` seen while `fieldLength` is still negative.
Assignments with `index < position` produce negative values and keep the
loop running, exactly as in the source.  The loop runs at most
`length - index` times, so it is embedded structurally over a `fuel`
argument that callers instantiate with a sufficient bound. -/
def scanLine (buffer : List Char) (length position : Nat) (fuel index : Nat)
    (lineLength fieldLength : Int) (discard : Bool) : Int × Int × Bool :=
  match fuel with
  | 0 => (lineLength, fieldLength, discard)
  | fuel + 1 =>
    if lineLength < 0 ∧ index < length then
      let character := buffer.getD index (Char.ofNat 0)
      if character = ':' ∧ fieldLength < 0 then
        scanLine buffer length position fuel (index + 1) lineLength
          ((index : Int) - (position : Int)) discard
      else if character = '\r' then
        scanLine buffer length position fuel (index + 1)
          ((index : Int) - (position : Int)) fieldLength true
      else if character = '\n' then
        scanLine buffer length position fuel (index + 1)
          ((index : Int) - (position : Int)) fieldLength discard
      else
        scanLine buffer length position fuel (index + 1) lineLength fieldLength discard
    else
      (lineLength, fieldLength, discard)

/-- LoopOut is the tuple of values live at the end of the `while` loop of
`feed`: the final scan position, the saved `startingPosition` and
`startingFieldLength`, the accumulation state and the emitted events. -/
structure LoopOut where
  position : Nat
  startingPosition : Nat
  startingFieldLength : Int
  ev : EvState
  events : List ParseEvent
  deriving DecidableEq, Repr

/-- feedLoop is the `while (position < length)` loop of `feed`: an optional
discarded `\n` after a `\r`, one `scanLine` pass, then either the break
case (saving the unconsumed offset and partial field length) or a line
dispatch followed by the next iteration.  Each iteration advances
`position` by at least one, so at most `length` iterations run; the loop
is embedded structurally over a `fuel` argument that `feed` instantiates
with `length + 1`. -/
def feedLoop (buffer : List Char) (length : Nat) (fuel position : Nat)
    (discardTrailingNewline : Bool) (startingPosition : Nat)
    (startingFieldLength : Int) (st : EvState) (acc : List ParseEvent) : LoopOut :=
  match fuel with
  | 0 =>
    { position := position, startingPosition := startingPosition,
      startingFieldLength := startingFieldLength, ev := st, events := acc }
  | fuel + 1 =>
    if position < length then
      let position2 :=
        if discardTrailingNewline ∧ buffer.getD position (Char.ofNat 0) = '\n' then
          position + 1
        else position
      let scan := scanLine buffer length position2 length startingPosition (-1)
        startingFieldLength false
      if scan.1 < 0 then
        { position := position2, startingPosition := length - position2,
          startingFieldLength := scan.2.1, ev := st, events := acc }
      else
        let pl := parseEventStreamLine buffer position2 scan.2.1 scan.1 st
        feedLoop buffer length fuel (position2 + scan.1.toNat + 1) scan.2.2 0 (-1)
          pl.1 (acc ++ pl.2)
    else
      { position := position, startingPosition := startingPosition,
        startingFieldLength := startingFieldLength, ev := st, events := acc }

/-- feed mirrors `createParser2`'s `feed`: append the chunk to the buffer,
strip a byte-order mark on the very first chunk, run the scanning loop and
trim the consumed prefix off the buffer. -/
def feed (s : PState) (chunk : List Char) : PState × List ParseEvent :=
  let buffer0 := s.buffer ++ chunk
  let buffer1 := if s.isFirstChunk ∧ hasBom buffer0 then buffer0.drop 3 else buffer0
  let length := buffer1.length
  let out := feedLoop buffer1 length (length + 1) 0 false s.startingPosition
    s.startingFieldLength s.ev []
  let buffer2 :=
    if out.position = length then []
    else if out.position > 0 then buffer1.drop out.position
    else buffer1
  ({ isFirstChunk := false, buffer := buffer2,
      startingPosition := out.startingPosition,
      startingFieldLength := out.startingFieldLength, ev := out.ev }, out.events)

/-- createParser2Reset is the state installed by `reset()`: this is the
state of a freshly created parser. -/
def createParser2Reset : PState :=
  { isFirstChunk := true, buffer := [], startingPosition := 0,
    startingFieldLength := -1, ev := { eventId := none, eventName := none, data := [] } }

/-- feedAll feeds a list of chunks in order to one parser instance and
concatenates the emitted events. -/
def feedAll (s : PState) : List (List Char) → PState × List ParseEvent
  | [] => (s, [])
  | c :: cs =>
    ((feedAll (feed s c).1 cs).1, (feed s c).2 ++ (feedAll (feed s c).1 cs).2)



/-! ### Canonical line-splitting semantics

For carriage-return-free input the decoder is equivalent to a canonical
description: keep the unterminated trailing line as pending text, split
each `pending ++ chunk` at `\n` into complete lines, and process the
complete lines one by one with the line dispatcher.  The equivalence is
proved below and carries the chunk-boundary-invariance results. -/

/-- consLine prepends a character to the first line of a split (or to the
trailing text when there is no complete line). -/
def consLine (c : Char) : List (List Char) × List Char → List (List Char) × List Char
  | ([], t) => ([], c :: t)
  | (l :: ls, t) => ((c :: l) :: ls, t)

/-- splitNl splits a character list at `\n` terminators into the list of
complete lines and the unterminated trailing text. -/
def splitNl : List Char → List (List Char) × List Char
  | [] => ([], [])
  | c :: cs =>
    if c = '\n' then ([] :: (splitNl cs).1, (splitNl cs).2)
    else consLine c (splitNl cs)

/-- firstColon is the index of the first `:` in a line, if any. -/
def firstColon : List Char → Option Nat
  | [] => none
  | c :: cs => if c = ':' then some 0 else (firstColon cs).map (· + 1)

/-- firstNl is the index of the first `\n` in a text, if any. -/
def firstNl : List Char → Option Nat
  | [] => none
  | c :: cs => if c = '\n' then some 0 else (firstNl cs).map (· + 1)

/-- flRel maps the decoder's `fieldLength` / `startingFieldLength` integer
to its observable content: all negative values behave identically (no
colon seen yet), a non-negative value records the colon offset. -/
def flRel (z : Int) : Option Nat :=
  if z < 0 then none else some z.toNat

/-- flOr keeps the first colon offset if one was already found, otherwise
falls back to the second scan result. -/
def flOr (a b : Option Nat) : Option Nat :=
  match a with
  | some v => some v
  | none => b

/-- lineStep is the canonical dispatch of one complete line: the blank-line
dispatch, or the field/value cut at the first colon with the optional
single space after it stripped (a colon ending the line behaves as if
followed by the `\n` terminator). -/
def lineStep (line : List Char) (st : EvState) : EvState × List ParseEvent :=
  if line = [] then
    if st.data.length > 0 then
      ({ eventId := none, eventName := none, data := [] },
        [ParseEvent.event st.eventId (emitName st.eventName) st.data.dropLast])
    else
      ({ st with eventName := none }, [])
  else
    match firstColon line with
    | none => applyField line [] st
    | some k =>
      let step := if line.getD (k + 1) '\n' = ' ' then k + 2 else k + 1
      applyField (line.take k) (line.drop step) st

/-- lineSteps folds lineStep over a list of complete lines, concatenating
the emitted events. -/
def lineSteps : List (List Char) → EvState → EvState × List ParseEvent
  | [], st => (st, [])
  | l :: ls, st =>
    ((lineSteps ls (lineStep l st).1).1,
      (lineStep l st).2 ++ (lineSteps ls (lineStep l st).1).2)

theorem flOr_none (b : Option Nat) : flOr none b = b := rfl

theorem flOr_some (v : Nat) (b : Option Nat) : flOr (some v) b = some v := rfl

theorem flOr_none_right (a : Option Nat) : flOr a none = a := by
  cases a <;> rfl

theorem flRel_neg {z : Int} (h : z < 0) : flRel z = none := by
  simp [flRel, h]

theorem flRel_nonneg {z : Int} (h : 0 ≤ z) : flRel z = some z.toNat := by
  simp [flRel, not_lt.mpr h]

theorem firstColon_lt_length {l : List Char} {k : Nat} (h : firstColon l = some k) :
    k < l.length := by
  induction l generalizing k with
  | nil => simp [firstColon] at h
  | cons c cs ih =>
    simp only [firstColon] at h
    by_cases hc : c = ':'
    · rw [if_pos hc] at h
      cases h
      simp
    · rw [if_neg hc] at h
      obtain ⟨k', hk', rfl⟩ := Option.map_eq_some'.mp h
      have := ih hk'
      simp only [List.length_cons]
      omega

theorem firstColon_append (a b : List Char) :
    firstColon (a ++ b) = flOr (firstColon a) ((firstColon b).map (· + a.length)) := by
  induction a with
  | nil => simp [firstColon, flOr_none]
  | cons c cs ih =>
    simp only [List.cons_append, firstColon, List.length_cons, List.append_eq]
    by_cases hc : c = ':'
    · rw [if_pos hc, if_pos hc, flOr_some]
    · rw [if_neg hc, if_neg hc, ih]
      cases hfc : firstColon cs with
      | some v => simp [flOr]
      | none =>
        simp only [Option.map_none', flOr_none]
        cases hb : firstColon b with
        | none => rfl
        | some w =>
          simp only [Option.map_some', Option.some.injEq]
          omega

theorem firstNl_none_iff (l : List Char) :
    firstNl l = none ↔ ∀ c ∈ l, c ≠ '\n' := by
  induction l with
  | nil => simp [firstNl]
  | cons c cs ih =>
    by_cases hc : c = '\n'
    · simp [firstNl, hc]
    · simp [firstNl, hc, ih]

theorem splitNl_fst_nil {l : List Char} (h : (splitNl l).1 = []) :
    (splitNl l).2 = l := by
  induction l with
  | nil => rfl
  | cons c cs ih =>
    by_cases hc : c = '\n'
    · simp [splitNl, hc] at h
    · rcases hq : splitNl cs with ⟨q1, q2⟩
      have hred : splitNl (c :: cs) = consLine c (q1, q2) := by
        simp [splitNl, hc, hq]
      rw [hred] at h ⊢
      cases q1 with
      | nil =>
        have h2 : q2 = cs := by
          have h3 := ih (by rw [hq])
          rw [hq] at h3
          exact h3
        simp [consLine, h2]
      | cons x xs =>
        simp [consLine] at h

theorem splitNl_of_no_nl {l : List Char} (h : ∀ c ∈ l, c ≠ '\n') :
    splitNl l = ([], l) := by
  induction l with
  | nil => rfl
  | cons c cs ih =>
    have hc : c ≠ '\n' := h c (by simp)
    have ihh := ih (fun x hx => h x (by simp [hx]))
    simp [splitNl, hc, ihh, consLine]

theorem splitNl_trailing_no_nl (l : List Char) : ∀ c ∈ (splitNl l).2, c ≠ '\n' := by
  induction l with
  | nil => simp [splitNl]
  | cons c cs ih =>
    by_cases hc : c = '\n'
    · simpa [splitNl, hc] using ih
    · simp only [splitNl, if_neg hc]
      rcases hq : splitNl cs with ⟨q1, q2⟩
      rw [hq] at ih
      cases q1 with
      | nil =>
        intro x hx
        rcases List.mem_cons.mp (by simpa [consLine] using hx) with rfl | hx2
        · exact hc
        · exact ih x hx2
      | cons y ys =>
        intro x hx
        exact ih x (by simpa [consLine] using hx)

theorem splitNl_suffix (l : List Char) : ∃ p, l = p ++ (splitNl l).2 := by
  induction l with
  | nil => exact ⟨[], rfl⟩
  | cons c cs ih =>
    obtain ⟨p, hp⟩ := ih
    by_cases hc : c = '\n'
    · refine ⟨c :: p, ?_⟩
      simp only [splitNl, if_pos hc]
      rw [List.cons_append, ← hp]
    · simp only [splitNl, if_neg hc]
      rcases hq : splitNl cs with ⟨q1, q2⟩
      rw [hq] at hp
      cases q1 with
      | nil =>
        have h2 : q2 = cs := by
          have := splitNl_fst_nil (l := cs) (by rw [hq])
          rw [hq] at this
          exact this
        refine ⟨[], ?_⟩
        simp [consLine, h2]
      | cons y ys =>
        refine ⟨c :: p, ?_⟩
        simp only [consLine]
        rw [List.cons_append, ← hp]

theorem splitNl_of_firstNl_some {l : List Char} {d : Nat} (h : firstNl l = some d) :
    splitNl l =
      ((l.take d) :: (splitNl (l.drop (d + 1))).1, (splitNl (l.drop (d + 1))).2) := by
  induction l generalizing d with
  | nil => simp [firstNl] at h
  | cons c cs ih =>
    by_cases hc : c = '\n'
    · simp only [firstNl, if_pos hc] at h
      cases h
      simp [splitNl, hc]
    · simp only [firstNl, if_neg hc] at h
      obtain ⟨d', hd', rfl⟩ := Option.map_eq_some'.mp h
      have ihr := ih hd'
      simp only [splitNl, if_neg hc, ihr, List.take_succ_cons, List.drop_succ_cons, consLine]

theorem splitNl_append (a b : List Char) :
    splitNl (a ++ b) =
      ((splitNl a).1 ++ (splitNl ((splitNl a).2 ++ b)).1,
        (splitNl ((splitNl a).2 ++ b)).2) := by
  induction a with
  | nil => simp [splitNl]
  | cons c cs ih =>
    by_cases hc : c = '\n'
    · simp [splitNl, hc, ih]
    · simp only [List.cons_append, splitNl, if_neg hc, List.append_eq]
      rcases hq : splitNl cs with ⟨q1, q2⟩
      cases q1 with
      | nil =>
        have h2 : q2 = cs := by
          have := splitNl_fst_nil (l := cs) (by rw [hq])
          rw [hq] at this
          exact this
        simp only [consLine, List.nil_append, h2]
        simp only [splitNl, if_neg hc]
        rcases splitNl (cs ++ b) with ⟨u, v⟩
        cases u <;> rfl
      | cons y ys =>
        rw [ih, hq]
        simp [consLine]

theorem lineSteps_append (xs ys : List (List Char)) (st : EvState) :
    lineSteps (xs ++ ys) st =
      ((lineSteps ys (lineSteps xs st).1).1,
        (lineSteps xs st).2 ++ (lineSteps ys (lineSteps xs st).1).2) := by
  induction xs generalizing st with
  | nil => simp [lineSteps]
  | cons x xs ih =>
    simp only [List.cons_append, lineSteps, List.append_eq, ih, List.append_assoc]

/-! ### Characterisation of the scanning loop on carriage-return-free buffers -/

theorem scanLine_of_nonneg (buffer : List Char) (length position fuel index : Nat)
    (ll fl : Int) (d : Bool) (h : 0 ≤ ll) :
    scanLine buffer length position fuel index ll fl d = (ll, fl, d) := by
  cases fuel with
  | zero => rfl
  | succ fuel =>
    simp only [scanLine]
    rw [if_neg]
    intro hcon
    omega

theorem getD_mem_of_lt {l : List Char} {i : Nat} (h : i < l.length) (d : Char) :
    l.getD i d ∈ l := by
  rw [List.getD_eq_getElem l d h]
  exact List.getElem_mem h

theorem drop_eq_getD_cons {l : List Char} {i : Nat} (h : i < l.length) (d : Char) :
    l.drop i = l.getD i d :: l.drop (i + 1) := by
  rw [List.getD_eq_getElem l d h]
  exact List.drop_eq_getElem_cons h

/-- colonShift rebases a colon offset found inside a scanned region to the
`index - position` form the decoder stores in `fieldLength`. -/
def colonShift (m position : Nat) (o : Option Nat) : Option Nat :=
  o.map (fun k => m + k - position)

theorem firstNl_cons_nl (X : List Char) : firstNl ('\n' :: X) = some 0 := by
  simp [firstNl]

theorem firstNl_cons_of_ne {c : Char} (hc : c ≠ '\n') (X : List Char) :
    firstNl (c :: X) = (firstNl X).map (· + 1) := by
  simp [firstNl, hc]

theorem colonShift_cons_colon (m position : Nat) (X : List Char) :
    colonShift m position (firstColon (':' :: X)) = some (m - position) := by
  simp [firstColon, colonShift]

theorem colonShift_cons_of_ne {c : Char} (hc : c ≠ ':') (m position : Nat)
    (hmp : position ≤ m) (X : List Char) :
    colonShift m position (firstColon (c :: X)) =
      colonShift (m + 1) position (firstColon X) := by
  cases hX : firstColon X with
  | none => simp [firstColon, hc, hX, colonShift]
  | some k =>
    simp only [firstColon, if_neg hc, hX, Option.map_some', colonShift]
    congr 1
    omega

theorem scanLine_spec (buffer : List Char) (position : Nat)
    (hnc : ∀ c ∈ buffer, c ≠ '\r') :
    ∀ (fuel index : Nat) (ll fl : Int), ll < 0 → buffer.length ≤ fuel + index →
    (∀ d, firstNl (buffer.drop (max index position)) = some d →
      ∃ flo : Int,
        scanLine buffer buffer.length position fuel index ll fl false =
          (((max index position + d : Nat) : Int) - (position : Int), flo, false) ∧
        flRel flo = flOr (flRel fl)
          (colonShift (max index position) position
            (firstColon ((buffer.drop (max index position)).take d)))) ∧
    (firstNl (buffer.drop (max index position)) = none →
      ∃ llo flo : Int,
        scanLine buffer buffer.length position fuel index ll fl false = (llo, flo, false) ∧
        llo < 0 ∧
        flRel flo = flOr (flRel fl)
          (colonShift (max index position) position
            (firstColon (buffer.drop (max index position))))) := by
  intro fuel
  induction fuel with
  | zero =>
    intro index ll fl hll hlen
    have hdrop : buffer.drop (max index position) = [] :=
      List.drop_eq_nil_of_le (by omega)
    constructor
    · intro d hd
      rw [hdrop] at hd
      simp [firstNl] at hd
    · intro _
      refine ⟨ll, fl, rfl, hll, ?_⟩
      rw [hdrop]
      simp [firstColon, colonShift, flOr_none_right]
  | succ fuel ih =>
    intro index ll fl hll hlen
    by_cases hidx : index < buffer.length
    case neg =>
      have hdrop : buffer.drop (max index position) = [] :=
        List.drop_eq_nil_of_le (by omega)
      have hscan : scanLine buffer buffer.length position (fuel + 1) index ll fl false =
          (ll, fl, false) := by
        simp only [scanLine]
        rw [if_neg]
        intro hcon
        exact hidx hcon.2
      constructor
      · intro d hd
        rw [hdrop] at hd
        simp [firstNl] at hd
      · intro _
        refine ⟨ll, fl, hscan, hll, ?_⟩
        rw [hdrop]
        simp [firstColon, colonShift, flOr_none_right]
    case pos =>
      have hcr : buffer.getD index (Char.ofNat 0) ≠ '\r' :=
        hnc _ (getD_mem_of_lt hidx _)
      have hstep : scanLine buffer buffer.length position (fuel + 1) index ll fl false =
          (if buffer.getD index (Char.ofNat 0) = ':' ∧ fl < 0 then
            scanLine buffer buffer.length position fuel (index + 1) ll
              ((index : Int) - (position : Int)) false
          else if buffer.getD index (Char.ofNat 0) = '\r' then
            scanLine buffer buffer.length position fuel (index + 1)
              ((index : Int) - (position : Int)) fl true
          else if buffer.getD index (Char.ofNat 0) = '\n' then
            scanLine buffer buffer.length position fuel (index + 1)
              ((index : Int) - (position : Int)) fl false
          else
            scanLine buffer buffer.length position fuel (index + 1) ll fl false) := by
        simp only [scanLine]
        rw [if_pos ⟨hll, hidx⟩]
      rw [hstep, if_neg (fun hcon => hcr hcon)]
      by_cases hA : buffer.getD index (Char.ofNat 0) = ':' ∧ fl < 0
      case pos =>
        rw [if_pos hA]
        rcases Nat.lt_or_ge index position with hip | hip
        · -- spurious colon before the line start
          have hm : max index position = position := by omega
          have hm2 : max (index + 1) position = position := by omega
          have hfl' : flRel ((index : Int) - (position : Int)) = none :=
            flRel_neg (by omega)
          have hfl0 : flRel fl = none := flRel_neg hA.2
          have hrec := ih (index + 1) ll ((index : Int) - (position : Int)) hll (by omega)
          rw [hm2, hfl'] at hrec
          rw [hm, hfl0]
          exact hrec
        · -- genuine colon: it is the first colon of the current line
          have hm : max index position = index := by omega
          have hm2 : max (index + 1) position = index + 1 := by omega
          have hfl' : flRel ((index : Int) - (position : Int)) = some (index - position) := by
            rw [flRel_nonneg (by omega)]
            congr 1
            omega
          have hfl0 : flRel fl = none := flRel_neg hA.2
          have hdropc : buffer.drop index =
              ':' :: buffer.drop (index + 1) := by
            rw [← hA.1]
            exact drop_eq_getD_cons hidx _
          have hrec := ih (index + 1) ll ((index : Int) - (position : Int)) hll (by omega)
          rw [hm2, hfl'] at hrec
          rw [hm, hfl0, hdropc]
          constructor
          · intro d hd
            rw [firstNl_cons_of_ne (by decide) _] at hd
            rcases Option.map_eq_some'.mp hd with ⟨d', hd', rfl⟩
            obtain ⟨flo, hsc, hflo⟩ := hrec.1 d' hd'
            refine ⟨flo, ?_, ?_⟩
            · rw [hsc]
              congr 2
              omega
            · rw [hflo, flOr_some, flOr_none, List.take_succ_cons, colonShift_cons_colon]
          · intro hd
            rw [firstNl_cons_of_ne (by decide) _] at hd
            have hd' : firstNl (buffer.drop (index + 1)) = none := by
              cases hq : firstNl (buffer.drop (index + 1)) with
              | none => rfl
              | some q => rw [hq] at hd; simp at hd
            obtain ⟨llo, flo, hsc, hlo, hflo⟩ := hrec.2 hd'
            refine ⟨llo, flo, hsc, hlo, ?_⟩
            rw [hflo, flOr_some, flOr_none, colonShift_cons_colon]
      case neg =>
        rw [if_neg hA]
        by_cases hnl : buffer.getD index (Char.ofNat 0) = '\n'
        case pos =>
          rw [if_pos hnl]
          rcases Nat.lt_or_ge index position with hip | hip
          · -- newline inside the already-consumed region: keeps scanning
            have hm : max index position = position := by omega
            have hm2 : max (index + 1) position = position := by omega
            have hrec := ih (index + 1) ((index : Int) - (position : Int)) fl
              (by omega) (by omega)
            rw [hm2] at hrec
            rw [hm]
            exact hrec
          · -- genuine newline: the line ends here
            have hm : max index position = index := by omega
            have hdropc : buffer.drop index = '\n' :: buffer.drop (index + 1) := by
              rw [← hnl]
              exact drop_eq_getD_cons hidx _
            have hscan := scanLine_of_nonneg buffer buffer.length position fuel (index + 1)
              ((index : Int) - (position : Int)) fl false (by omega)
            rw [hm, hdropc]
            constructor
            · intro d hd
              rw [firstNl_cons_nl] at hd
              cases hd
              refine ⟨fl, ?_, ?_⟩
              · simpa using hscan
              · rw [List.take_zero]
                simp [colonShift, firstColon, flOr_none_right]
            · intro hd
              rw [firstNl_cons_nl] at hd
              simp at hd
        case neg =>
          rw [if_neg hnl]
          rcases Nat.lt_or_ge index position with hip | hip
          · have hm : max index position = position := by omega
            have hm2 : max (index + 1) position = position := by omega
            have hrec := ih (index + 1) ll fl hll (by omega)
            rw [hm2] at hrec
            rw [hm]
            exact hrec
          · have hm : max index position = index := by omega
            have hm2 : max (index + 1) position = index + 1 := by omega
            have hdropc : buffer.drop index =
                buffer.getD index (Char.ofNat 0) :: buffer.drop (index + 1) :=
              drop_eq_getD_cons hidx _
            have hrec := ih (index + 1) ll fl hll (by omega)
            rw [hm2] at hrec
            rw [hm, hdropc]
            have hnn : buffer.getD index (Char.ofNat 0) ≠ '\n' := hnl
            by_cases hcc : buffer.getD index (Char.ofNat 0) = ':'
            · -- a colon, but a field length is already recorded
              have hflp : 0 ≤ fl := by
                rcases lt_or_ge fl 0 with hv | hv
                · exact absurd ⟨hcc, hv⟩ hA
                · exact hv
              have hfl0 : flRel fl = some fl.toNat := flRel_nonneg hflp
              constructor
              · intro d hd
                rw [firstNl_cons_of_ne hnn _] at hd
                rcases Option.map_eq_some'.mp hd with ⟨d', hd', rfl⟩
                obtain ⟨flo, hsc, hflo⟩ := hrec.1 d' hd'
                refine ⟨flo, ?_, ?_⟩
                · rw [hsc]
                  congr 2
                  omega
                · rw [hflo, hfl0, flOr_some, flOr_some]
              · intro hd
                rw [firstNl_cons_of_ne hnn _] at hd
                have hd' : firstNl (buffer.drop (index + 1)) = none := by
                  cases hq : firstNl (buffer.drop (index + 1)) with
                  | none => rfl
                  | some q => rw [hq] at hd; simp at hd
                obtain ⟨llo, flo, hsc, hlo, hflo⟩ := hrec.2 hd'
                refine ⟨llo, flo, hsc, hlo, ?_⟩
                rw [hflo, hfl0, flOr_some, flOr_some]
            · -- an ordinary character
              constructor
              · intro d hd
                rw [firstNl_cons_of_ne hnn _] at hd
                rcases Option.map_eq_some'.mp hd with ⟨d', hd', rfl⟩
                obtain ⟨flo, hsc, hflo⟩ := hrec.1 d' hd'
                refine ⟨flo, ?_, ?_⟩
                · rw [hsc]
                  congr 2
                  omega
                · rw [hflo, List.take_succ_cons, colonShift_cons_of_ne hcc index position hip]
              · intro hd
                rw [firstNl_cons_of_ne hnn _] at hd
                have hd' : firstNl (buffer.drop (index + 1)) = none := by
                  cases hq : firstNl (buffer.drop (index + 1)) with
                  | none => rfl
                  | some q => rw [hq] at hd; simp at hd
                obtain ⟨llo, flo, hsc, hlo, hflo⟩ := hrec.2 hd'
                refine ⟨llo, flo, hsc, hlo, ?_⟩
                rw [hflo, colonShift_cons_of_ne hcc index position hip]

/-! ### The line dispatcher agrees with the canonical per-line dispatch -/

theorem jsSlice_drop_take (l : List Char) (a n : Nat) :
    jsSlice l a (a + n) = (l.drop a).take n := by
  unfold jsSlice
  rw [List.drop_take]
  congr 1
  omega

theorem take_drop_getD (l : List Char) (a n i : Nat) (h : i < n) (d : Char) :
    ((l.drop a).take n).getD i d = l.getD (a + i) d := by
  rw [List.getD_eq_getElem?_getD, List.getElem?_take, if_pos h, List.getElem?_drop,
    List.getD_eq_getElem?_getD]

theorem getD_of_length_le (l : List Char) (i : Nat) (h : l.length ≤ i) (d : Char) :
    l.getD i d = d := by
  rw [List.getD_eq_getElem?_getD, List.getElem?_eq_none h]
  rfl

theorem take_drop_drop (l : List Char) (a n s : Nat) :
    ((l.drop a).take n).drop s = (l.drop (a + s)).take (n - s) := by
  rw [List.drop_take, List.drop_drop]

theorem flRel_eq_some {fl : Int} {k : Nat} (h : flRel fl = some k) :
    0 ≤ fl ∧ fl.toNat = k := by
  by_cases hneg : fl < 0
  · rw [flRel_neg hneg] at h
    cases h
  · rw [flRel_nonneg (by omega)] at h
    cases h
    exact ⟨by omega, rfl⟩

theorem parseEventStreamLine_eq_lineStep
    (buffer : List Char) (position : Nat) (fl ll : Int) (st : EvState)
    (hll : 0 ≤ ll)
    (hlen : position + ll.toNat < buffer.length)
    (hterm : buffer.getD (position + ll.toNat) (Char.ofNat 0) = '\n')
    (hfl : flRel fl = firstColon ((buffer.drop position).take ll.toNat)) :
    parseEventStreamLine buffer position fl ll st =
      lineStep ((buffer.drop position).take ll.toNat) st := by
  have hLlen : ((buffer.drop position).take ll.toNat).length = ll.toNat := by
    rw [List.length_take, List.length_drop]
    omega
  by_cases h0 : ll = 0
  · subst h0
    simp [parseEventStreamLine, lineStep]
  · have h0' : ¬ (ll = 0) := h0
    have hLne : (buffer.drop position).take ll.toNat ≠ [] := by
      intro hcon
      rw [hcon] at hLlen
      simp at hLlen
      omega
    rw [lineStep, if_neg hLne]
    cases hfc : firstColon ((buffer.drop position).take ll.toNat) with
    | none =>
      rw [hfc] at hfl
      have hneg : fl < 0 := by
        by_cases hv : fl < 0
        · exact hv
        · rw [flRel_nonneg (by omega)] at hfl
          cases hfl
      simp only [parseEventStreamLine, if_neg h0', if_pos hneg]
      rw [jsSlice_drop_take buffer position ll.toNat]
      have hv0 : (ll - ll).toNat = 0 := by omega
      rw [hv0]
      have : jsSlice buffer (position + ll.toNat) (position + ll.toNat + 0) = [] := by
        rw [jsSlice_drop_take]
        simp
      rw [this]
    | some k =>
      rw [hfc] at hfl
      obtain ⟨hflpos, hflk⟩ := flRel_eq_some hfl
      have hknot : ¬ (fl < 0) := by omega
      have hklt : k < ll.toNat := by
        have := firstColon_lt_length hfc
        omega
      have heqsc : buffer.getD (position + fl.toNat + 1) (Char.ofNat 0) =
          ((buffer.drop position).take ll.toNat).getD (k + 1) '\n' := by
        rcases Nat.lt_or_ge (k + 1) ll.toNat with hlt | hge
        · have hidxeq : position + fl.toNat + 1 = position + (k + 1) := by omega
          have hb : position + (k + 1) < buffer.length := by omega
          rw [hidxeq, take_drop_getD buffer position ll.toNat (k + 1) hlt '\n',
            List.getD_eq_getElem buffer (Char.ofNat 0) hb,
            List.getD_eq_getElem buffer '\n' hb]
        · rw [getD_of_length_le _ (k + 1) (by omega) '\n']
          have hidxeq : position + fl.toNat + 1 = position + ll.toNat := by omega
          rw [hidxeq, hterm]
      have hfield : jsSlice buffer position (position + fl.toNat) =
          ((buffer.drop position).take ll.toNat).take k := by
        rw [jsSlice_drop_take, hflk, List.take_take]
        congr 1
        omega
      simp only [parseEventStreamLine, if_neg h0', if_neg hknot, heqsc, hfield]
      by_cases hsp : ((buffer.drop position).take ll.toNat).getD (k + 1) '\n' = ' '
      · have hk2 : k + 1 < ll.toNat := by
          rcases Nat.lt_or_ge (k + 1) ll.toNat with hlt | hge
          · exact hlt
          · rw [getD_of_length_le _ (k + 1) (by omega) '\n'] at hsp
            cases hsp
        rw [if_pos hsp, if_pos hsp]
        have hstep : (fl + 2).toNat = k + 2 := by omega
        have hval : (ll - (fl + 2)).toNat = ll.toNat - (k + 2) := by omega
        rw [hstep, hval, jsSlice_drop_take buffer (position + (k + 2)) (ll.toNat - (k + 2))]
        rw [take_drop_drop buffer position ll.toNat (k + 2)]
      · rw [if_neg hsp, if_neg hsp]
        have hstep : (fl + 1).toNat = k + 1 := by omega
        have hval : (ll - (fl + 1)).toNat = ll.toNat - (k + 1) := by omega
        rw [hstep, hval, jsSlice_drop_take buffer (position + (k + 1)) (ll.toNat - (k + 1))]
        rw [take_drop_drop buffer position ll.toNat (k + 1)]

/-! ### The feed loop agrees with canonical line splitting -/

theorem getD_drop (l : List Char) (m i : Nat) (d : Char) :
    (l.drop m).getD i d = l.getD (m + i) d := by
  rw [List.getD_eq_getElem?_getD, List.getElem?_drop, List.getD_eq_getElem?_getD]

theorem firstNl_getD {X : List Char} {d : Nat} (h : firstNl X = some d) :
    X.getD d (Char.ofNat 0) = '\n' ∧ d < X.length := by
  induction X generalizing d with
  | nil => simp [firstNl] at h
  | cons c cs ih =>
    by_cases hc : c = '\n'
    · simp only [firstNl, if_pos hc] at h
      cases h
      simp [hc]
    · simp only [firstNl, if_neg hc] at h
      obtain ⟨d', hd', rfl⟩ := Option.map_eq_some'.mp h
      have := ih hd'
      constructor
      · simpa [List.getD] using this.1
      · simp only [List.length_cons]
        omega

theorem firstNl_append_of_no_nl {A : List Char} (h : ∀ c ∈ A, c ≠ '\n')
    (B : List Char) :
    firstNl (A ++ B) = (firstNl B).map (· + A.length) := by
  induction A with
  | nil => simp
  | cons c cs ih =>
    have hc : c ≠ '\n' := h c (by simp)
    have ihh := ih (fun x hx => h x (by simp [hx]))
    simp only [List.cons_append, firstNl, if_neg hc, List.append_eq, ihh,
      Option.map_map, List.length_cons]
    cases firstNl B with
    | none => rfl
    | some w =>
      simp only [Option.map_some', Function.comp_apply, Option.some.injEq]
      omega

theorem no_nl_take_region (buffer : List Char) (position m : Nat)
    (hmlen : m ≤ buffer.length)
    (h : ∀ j, position ≤ j → j < m → buffer.getD j (Char.ofNat 0) ≠ '\n') :
    ∀ c ∈ (buffer.drop position).take (m - position), c ≠ '\n' := by
  intro c hc
  obtain ⟨i, hi, hgi⟩ := List.mem_iff_getElem.mp hc
  have hlen2 : ((buffer.drop position).take (m - position)).length =
      min (m - position) (buffer.length - position) := by
    rw [List.length_take, List.length_drop]
  have hi2 : i < m - position := by omega
  have hib : position + i < buffer.length := by omega
  have hc2 : c = buffer.getD (position + i) (Char.ofNat 0) := by
    rw [← hgi, List.getD_eq_getElem buffer (Char.ofNat 0) hib]
    rw [List.getElem_take, List.getElem_drop]
  rw [hc2]
  exact h (position + i) (by omega) (by omega)

theorem colonShift_eq_map (m position : Nat) (h : position ≤ m) (o : Option Nat) :
    colonShift m position o = o.map (· + (m - position)) := by
  cases o with
  | none => rfl
  | some k =>
    simp only [colonShift, Option.map_some', Option.some.injEq]
    omega

theorem feedLoop_spec (buffer : List Char) (hnc : ∀ c ∈ buffer, c ≠ '\r') :
    ∀ (fuel position index : Nat) (fl : Int) (st : EvState) (acc : List ParseEvent),
    position ≤ buffer.length →
    index ≤ buffer.length →
    buffer.length - position < fuel →
    (∀ j, position ≤ j → j < max index position →
      buffer.getD j (Char.ofNat 0) ≠ '\n') →
    flRel fl = firstColon ((buffer.drop position).take (max index position - position)) →
    (position = buffer.length → index = 0) →
    ∃ flo : Int,
      feedLoop buffer buffer.length fuel position false index fl st acc =
        { position := buffer.length - (splitNl (buffer.drop position)).2.length,
          startingPosition := (splitNl (buffer.drop position)).2.length,
          startingFieldLength := flo,
          ev := (lineSteps (splitNl (buffer.drop position)).1 st).1,
          events := acc ++ (lineSteps (splitNl (buffer.drop position)).1 st).2 } ∧
      flRel flo = firstColon (splitNl (buffer.drop position)).2 := by
  intro fuel
  induction fuel with
  | zero =>
    intro position index fl st acc hpos hidx hfuel hnl hfl hp0
    omega
  | succ fuel ih =>
    intro position index fl st acc hpos hidx hfuel hnl hfl hp0
    by_cases hlt : position < buffer.length
    case neg =>
      have hplen : position = buffer.length := by omega
      have hrest : buffer.drop position = [] := List.drop_eq_nil_of_le (by omega)
      have hi0 : index = 0 := hp0 hplen
      rw [hrest] at hfl ⊢
      refine ⟨fl, ?_, ?_⟩
      · have hstop : feedLoop buffer buffer.length (fuel + 1) position false index fl st acc =
            { position := position, startingPosition := index,
              startingFieldLength := fl, ev := st, events := acc } := by
          simp only [feedLoop]
          rw [if_neg hlt]
        rw [hstop]
        simp only [splitNl, lineSteps, List.length_nil, Nat.sub_zero, List.append_nil]
        rw [hplen, hi0]
      · simp only [splitNl]
        simp only [List.take_nil] at hfl
        exact hfl
    case pos =>
      have hm_le : max index position ≤ buffer.length := by omega
      have hm_ge : position ≤ max index position := le_max_right index position
      have hA_nonl : ∀ c ∈ (buffer.drop position).take (max index position - position),
          c ≠ '\n' := no_nl_take_region buffer position (max index position) hm_le hnl
      have hA_len : ((buffer.drop position).take (max index position - position)).length
          = max index position - position := by
        rw [List.length_take, List.length_drop]
        omega
      have hrest_decomp : buffer.drop position =
          (buffer.drop position).take (max index position - position) ++
          buffer.drop (max index position) := by
        conv_lhs => rw [← List.take_append_drop (max index position - position)
          (buffer.drop position)]
        rw [List.drop_drop]
        congr 2
        omega
      have hspec := scanLine_spec buffer position hnc buffer.length index (-1) fl
        (by norm_num) (by omega)
      cases hfn : firstNl (buffer.drop (max index position)) with
      | some d =>
        obtain ⟨flsc, hscan, hflsc⟩ := hspec.1 d hfn
        have hd_prop := firstNl_getD hfn
        have hjlt : max index position + d < buffer.length := by
          have h2 := hd_prop.2
          rw [List.length_drop] at h2
          omega
        have hterm : buffer.getD (max index position + d) (Char.ofNat 0) = '\n' := by
          have h1 := hd_prop.1
          rwa [getD_drop] at h1
        have hll_nonneg : (0 : Int) ≤ ((max index position + d : Nat) : Int) - (position : Int) := by
          omega
        have htoNat : (((max index position + d : Nat) : Int) - (position : Int)).toNat
            = (max index position - position) + d := by omega
        have hfn_rest : firstNl (buffer.drop position) =
            some ((max index position - position) + d) := by
          rw [hrest_decomp, firstNl_append_of_no_nl hA_nonl, hfn, hA_len]
          simp only [Option.map_some', Option.some.injEq]
          omega
        have hsplit := splitNl_of_firstNl_some hfn_rest
        have htake : (buffer.drop position).take ((max index position - position) + d) =
            (buffer.drop position).take (max index position - position) ++
            (buffer.drop (max index position)).take d := by
          conv_lhs => rw [hrest_decomp, List.take_append_eq_append_take]
          rw [List.take_of_length_le (by rw [hA_len]; omega), hA_len]
          rw [show (max index position - position) + d - (max index position - position) = d
            from by omega]
        have hbridge : flRel flsc =
            firstColon ((buffer.drop position).take ((max index position - position) + d)) := by
          rw [hflsc, hfl, htake, firstColon_append, hA_len]
          congr 1
          rw [colonShift_eq_map (max index position) position hm_ge]
        have hparse := parseEventStreamLine_eq_lineStep buffer position flsc
          (((max index position + d : Nat) : Int) - (position : Int)) st hll_nonneg
          (by rw [htoNat]; omega)
          (by rw [htoNat, show position + ((max index position - position) + d)
                = max index position + d from by omega]; exact hterm)
          (by rw [htoNat]; exact hbridge)
        rw [htoNat] at hparse
        obtain ⟨flo, hrec_eq, hrec_fl⟩ := ih (position + ((max index position - position) + d) + 1)
          0 (-1) (lineStep ((buffer.drop position).take ((max index position - position) + d)) st).1
          (acc ++ (lineStep ((buffer.drop position).take ((max index position - position) + d)) st).2)
          (by omega) (by omega) (by omega)
          (by intro j hj1 hj2; simp only [Nat.max_eq_right (Nat.zero_le _)] at hj2; omega)
          (by simp only [Nat.max_eq_right (Nat.zero_le _), Nat.sub_self, List.take_zero]
              rfl)
          (by intro _; rfl)
        have hdrop_al : buffer.drop (position + ((max index position - position) + d) + 1) =
            (buffer.drop position).drop ((max index position - position) + d + 1) := by
          rw [List.drop_drop, show position + ((max index position - position) + d + 1)
              = position + ((max index position - position) + d) + 1 from by omega]
        rw [hdrop_al] at hrec_eq hrec_fl
        refine ⟨flo, ?_, ?_⟩
        · have hloop : feedLoop buffer buffer.length (fuel + 1) position false index fl st acc =
              feedLoop buffer buffer.length fuel
                (position + ((max index position - position) + d) + 1) false 0 (-1)
                (lineStep ((buffer.drop position).take ((max index position - position) + d)) st).1
                (acc ++ (lineStep ((buffer.drop position).take
                  ((max index position - position) + d)) st).2) := by
            simp only [feedLoop]
            rw [if_pos hlt]
            simp only [Bool.false_eq_true, false_and, if_false, hscan]
            rw [if_neg (not_lt.mpr hll_nonneg), hparse, htoNat]
          rw [hloop, hrec_eq, hsplit]
          simp only [lineSteps, List.append_assoc]
        · rw [hrec_fl, hsplit]
      | none =>
        obtain ⟨llo, flsc, hscan, hllo, hflsc⟩ := hspec.2 hfn
        have hB_nonl : ∀ c ∈ buffer.drop (max index position), c ≠ '\n' :=
          (firstNl_none_iff _).mp hfn
        have hrest_nonl : ∀ c ∈ buffer.drop position, c ≠ '\n' := by
          intro c hc
          rw [hrest_decomp] at hc
          rcases List.mem_append.mp hc with hca | hcb
          · exact hA_nonl c hca
          · exact hB_nonl c hcb
        have hsplit0 : splitNl (buffer.drop position) = ([], buffer.drop position) :=
          splitNl_of_no_nl hrest_nonl
        refine ⟨flsc, ?_, ?_⟩
        · have hloop : feedLoop buffer buffer.length (fuel + 1) position false index fl st acc =
              { position := position, startingPosition := buffer.length - position,
                startingFieldLength := flsc, ev := st, events := acc } := by
            simp only [feedLoop]
            rw [if_pos hlt]
            simp only [Bool.false_eq_true, false_and, if_false, hscan]
            rw [if_pos hllo]
          rw [hloop, hsplit0]
          simp only [lineSteps, List.length_drop, List.append_nil]
          rw [show buffer.length - (buffer.length - position) = position from by omega]
        · rw [hsplit0]
          rw [hflsc, hfl, colonShift_eq_map (max index position) position hm_ge]
          conv_rhs => rw [hrest_decomp]
          rw [firstColon_append, hA_len]

/-! ### Parser-state invariant and the chunk-level specification of feed -/

theorem getD_append_left {l1 l2 : List Char} {j : Nat} (h : j < l1.length) (d : Char) :
    (l1 ++ l2).getD j d = l1.getD j d := by
  rw [List.getD_eq_getElem?_getD, List.getElem?_append, if_pos h,
    List.getD_eq_getElem?_getD]

/-- PInv is the reachability invariant of a parser state that has been fed
only carriage-return-free chunks: the buffer holds exactly the pending
unterminated line, `startingPosition` is its length, `startingFieldLength`
records the position of the first colon of the pending line (negative when
there is none), and before the first chunk the buffer is empty. -/
def PInv (s : PState) : Prop :=
  s.startingPosition = s.buffer.length ∧
  (∀ c ∈ s.buffer, c ≠ '\n') ∧
  (∀ c ∈ s.buffer, c ≠ '\r') ∧
  flRel s.startingFieldLength = firstColon s.buffer ∧
  (s.isFirstChunk = true → s.buffer = [])

theorem PInv_init : PInv createParser2Reset := by
  refine ⟨rfl, by simp [createParser2Reset], by simp [createParser2Reset], ?_, fun _ => rfl⟩
  simp [createParser2Reset, flRel, firstColon]

theorem feed_spec (s : PState) (c : List Char) (hinv : PInv s)
    (hc : ∀ x ∈ c, x ≠ '\r')
    (hbom : s.isFirstChunk = true → hasBom c = false) :
    feed s c =
      ({ isFirstChunk := false,
         buffer := (splitNl (s.buffer ++ c)).2,
         startingPosition := (splitNl (s.buffer ++ c)).2.length,
         startingFieldLength := (feed s c).1.startingFieldLength,
         ev := (lineSteps (splitNl (s.buffer ++ c)).1 s.ev).1 },
        (lineSteps (splitNl (s.buffer ++ c)).1 s.ev).2) ∧
    PInv (feed s c).1 := by
  obtain ⟨hsp, hbn, hbr, hfc, hfb⟩ := hinv
  have hnc0 : ∀ x ∈ s.buffer ++ c, x ≠ '\r' := by
    intro x hx
    rcases List.mem_append.mp hx with hx1 | hx2
    · exact hbr x hx1
    · exact hc x hx2
  have hbom0 : (if s.isFirstChunk ∧ hasBom (s.buffer ++ c) then (s.buffer ++ c).drop 3
      else (s.buffer ++ c)) = s.buffer ++ c := by
    cases hif : s.isFirstChunk with
    | false => simp [hif]
    | true =>
      rw [hfb hif]
      simp [hif, hbom hif]
  have hlspec := feedLoop_spec (s.buffer ++ c) hnc0 ((s.buffer ++ c).length + 1) 0
    s.startingPosition s.startingFieldLength s.ev []
    (Nat.zero_le _)
    (by rw [hsp, List.length_append]; omega)
    (by omega)
    (by
      intro j hj1 hj2
      rw [Nat.max_eq_left (Nat.zero_le _)] at hj2
      rw [getD_append_left (by omega : j < s.buffer.length)]
      exact fun hcon => hbn _ (getD_mem_of_lt (by omega) _) hcon)
    (by
      rw [Nat.max_eq_left (Nat.zero_le _), Nat.sub_zero, List.drop_zero, hsp,
        List.take_left]
      exact hfc)
    (by
      intro h0
      rw [List.length_append] at h0
      omega)
  obtain ⟨flo, heq, hfo⟩ := hlspec
  rw [List.drop_zero] at heq hfo
  obtain ⟨p, hp⟩ := splitNl_suffix (s.buffer ++ c)
  have hlent : (splitNl (s.buffer ++ c)).2.length ≤ (s.buffer ++ c).length := by
    conv_rhs => rw [hp]
    rw [List.length_append]
    omega
  have hplen : p.length = (s.buffer ++ c).length - (splitNl (s.buffer ++ c)).2.length := by
    have h2 := congrArg List.length hp
    rw [List.length_append, List.length_append] at h2
    rw [List.length_append]
    omega
  have hdropt : (s.buffer ++ c).drop
      ((s.buffer ++ c).length - (splitNl (s.buffer ++ c)).2.length) =
      (splitNl (s.buffer ++ c)).2 := by
    rw [← hplen]
    conv_lhs => rw [hp]
    exact List.drop_left p _
  have hfeed : feed s c =
      ({ isFirstChunk := false,
         buffer := (splitNl (s.buffer ++ c)).2,
         startingPosition := (splitNl (s.buffer ++ c)).2.length,
         startingFieldLength := flo,
         ev := (lineSteps (splitNl (s.buffer ++ c)).1 s.ev).1 },
        (lineSteps (splitNl (s.buffer ++ c)).1 s.ev).2) := by
    simp only [feed, hbom0, heq, List.nil_append]
    by_cases h0 : (splitNl (s.buffer ++ c)).2.length = 0
    · have ht0 : (splitNl (s.buffer ++ c)).2 = [] := List.length_eq_zero.mp h0
      rw [if_pos (by omega)]
      rw [ht0]
    · by_cases h1 : (s.buffer ++ c).length - (splitNl (s.buffer ++ c)).2.length = 0
      · have hpnil : p = [] := List.length_eq_zero.mp (by omega)
        rw [hpnil, List.nil_append] at hp
        rw [if_neg (by omega), if_neg (by omega), ← hp]
      · rw [if_neg (by omega), if_pos (by omega), hdropt]
  constructor
  · rw [hfeed]
  · rw [hfeed]
    refine ⟨rfl, splitNl_trailing_no_nl _, ?_, ?_, ?_⟩
    · intro x hx
      exact hnc0 x (by rw [hp]; exact List.mem_append.mpr (Or.inr hx))
    · exact hfo
    · intro h
      simp at h

theorem feedAll_spec :
    ∀ (chunks : List (List Char)) (s : PState), PInv s →
    (∀ ch ∈ chunks, ∀ x ∈ ch, x ≠ '\r') →
    (s.isFirstChunk = true → ∀ ch hd, chunks = ch :: hd → hasBom ch = false) →
    (feedAll s chunks).2 = (lineSteps (splitNl (s.buffer ++ chunks.flatten)).1 s.ev).2 ∧
    (feedAll s chunks).1.buffer = (splitNl (s.buffer ++ chunks.flatten)).2 ∧
    (feedAll s chunks).1.ev = (lineSteps (splitNl (s.buffer ++ chunks.flatten)).1 s.ev).1 ∧
    PInv (feedAll s chunks).1 := by
  intro chunks
  induction chunks with
  | nil =>
    intro s hinv hcr hbom
    have hsp := splitNl_of_no_nl hinv.2.1
    simp only [feedAll, List.flatten_nil, List.append_nil, hsp, lineSteps]
    exact ⟨trivial, trivial, trivial, hinv⟩
  | cons ch cs ih =>
    intro s hinv hcr hbom
    obtain ⟨hfeed, hinv'⟩ := feed_spec s ch hinv (hcr ch (by simp))
      (fun h => hbom h ch cs rfl)
    have hfc_false : (feed s ch).1.isFirstChunk = false := by rw [hfeed]
    obtain ⟨hev2, hbuf2, hst2, hinv2⟩ := ih (feed s ch).1 hinv'
      (fun c hc => hcr c (by simp [hc]))
      (fun h => absurd h (by rw [hfc_false]; simp))
    have hbuf1 : (feed s ch).1.buffer = (splitNl (s.buffer ++ ch)).2 := by rw [hfeed]
    have hev1 : (feed s ch).2 = (lineSteps (splitNl (s.buffer ++ ch)).1 s.ev).2 := by
      rw [hfeed]
    have hst1 : (feed s ch).1.ev = (lineSteps (splitNl (s.buffer ++ ch)).1 s.ev).1 := by
      rw [hfeed]
    have hflat : s.buffer ++ (ch :: cs).flatten = (s.buffer ++ ch) ++ cs.flatten := by
      rw [List.flatten_cons, List.append_assoc]
    have hsplitA := splitNl_append (s.buffer ++ ch) cs.flatten
    have hs1 : (splitNl ((s.buffer ++ ch) ++ cs.flatten)).1 =
        (splitNl (s.buffer ++ ch)).1 ++
        (splitNl ((splitNl (s.buffer ++ ch)).2 ++ cs.flatten)).1 := by
      rw [hsplitA]
    have hs2 : (splitNl ((s.buffer ++ ch) ++ cs.flatten)).2 =
        (splitNl ((splitNl (s.buffer ++ ch)).2 ++ cs.flatten)).2 := by
      rw [hsplitA]
    refine ⟨?_, ?_, ?_, hinv2⟩
    · show (feed s ch).2 ++ (feedAll (feed s ch).1 cs).2 = _
      rw [hev2, hbuf1, hst1, hev1, hflat, hs1, lineSteps_append]
    · show (feedAll (feed s ch).1 cs).1.buffer = _
      rw [hbuf2, hbuf1, hflat, hs2]
    · show (feedAll (feed s ch).1 cs).1.ev = _
      rw [hst2, hbuf1, hst1, hflat, hs1, lineSteps_append]

/-! ### Decoder claims -/

theorem hasBom_append {c : List Char} (r : List Char) (h : hasBom c = true) :
    hasBom (c ++ r) = true := by
  cases c with
  | nil => simp [hasBom] at h
  | cons a c1 =>
    cases c1 with
    | nil => simp [hasBom] at h
    | cons b c2 =>
      cases c2 with
      | nil => simp [hasBom] at h
      | cons d tail => simpa [hasBom] using h

theorem applyField_no_event (f v : List Char) (st : EvState) (i n : Option (List Char))
    (d : List Char) :
    ParseEvent.event i n d ∉ (applyField f v st).2 := by
  unfold applyField
  split
  · simp
  · split
    · simp
    · split
      · simp
      · split
        · split <;> simp
        · simp

theorem lineStep_no_event {L : List Char} (hL : L ≠ []) (st : EvState)
    (i n : Option (List Char)) (d : List Char) :
    ParseEvent.event i n d ∉ (lineStep L st).2 := by
  unfold lineStep
  rw [if_neg hL]
  cases hfc : firstColon L with
  | none => exact applyField_no_event _ _ _ _ _ _
  | some k => exact applyField_no_event _ _ _ _ _ _

theorem lineSteps_no_event {lines : List (List Char)} (h : ∀ L ∈ lines, L ≠ []) :
    ∀ (st : EvState) (i n : Option (List Char)) (d : List Char),
    ParseEvent.event i n d ∉ (lineSteps lines st).2 := by
  induction lines with
  | nil => simp [lineSteps]
  | cons L ls ih =>
    intro st i n d hmem
    simp only [lineSteps, List.mem_append] at hmem
    rcases hmem with h1 | h2
    · exact lineStep_no_event (h L (by simp)) st i n d h1
    · exact ih (fun L2 hl2 => h L2 (by simp [hl2])) _ i n d h2

/-- Claim C1 (amended): for input text that contains no carriage return and
does not begin with the UTF-8 byte-order-mark triple, feeding the text to a
fresh `createParser2` decoder split into chunks at any offsets produces
exactly the same ordered sequence of emitted events (data events and
reconnect-interval notifications alike) as feeding it as a single chunk. -/
theorem decoder_chunking_invariance (text : List Char) (chunks : List (List Char))
    (hjoin : chunks.flatten = text)
    (hcr : ∀ x ∈ text, x ≠ '\r')
    (hbom : hasBom text = false) :
    (feedAll createParser2Reset chunks).2 = (feed createParser2Reset text).2 := by
  subst hjoin
  have h1 := feedAll_spec chunks createParser2Reset PInv_init
    (fun ch hch x hx => hcr x (List.mem_flatten.mpr ⟨ch, hch, hx⟩))
    (by
      intro _ ch hd hchunks
      subst hchunks
      cases hhb : hasBom ch with
      | false => rfl
      | true =>
        exfalso
        have h3 := hasBom_append hd.flatten hhb
        rw [List.flatten_cons, h3] at hbom
        simp at hbom)
  have h2 := feedAll_spec [chunks.flatten] createParser2Reset PInv_init
    (by
      intro ch hch x hx
      rcases List.mem_singleton.mp hch with rfl
      exact hcr x hx)
    (by
      intro _ ch hd heq
      cases heq
      exact hbom)
  have h3 : (feedAll createParser2Reset [chunks.flatten]).2 =
      (feed createParser2Reset chunks.flatten).2 := by
    simp [feedAll]
  rw [h1.1, ← h3, h2.1]
  simp

/-- Claim C1 witness instance. -/
theorem decoder_chunking_invariance_witness :
    (feedAll createParser2Reset ["data: h".toList, "i\n".toList, "\n".toList]).2 =
      (feed createParser2Reset "data: hi\n\n".toList).2 :=
  decoder_chunking_invariance "data: hi\n\n".toList
    ["data: h".toList, "i\n".toList, "\n".toList] (by decide) (by decide) (by decide)

/-- Claim C1 counterexample: the claim as stated (for every valid
server-sent-event input) is false.  The valid CRLF-terminated stream
`"data: a\r\ndata: b\n\n"` yields two events when split as
`["data: a\r", "\ndata: b\n\n"]` but zero events when fed as one chunk:
re-scanning consumed text re-arms `discardTrailingNewline` at the old
`\r`, which then swallows the blank line. -/
theorem decoder_chunking_dependence_crlf :
    ["data: a\r".toList, "\ndata: b\n\n".toList].flatten =
      "data: a\r\ndata: b\n\n".toList ∧
    (feedAll createParser2Reset ["data: a\r".toList, "\ndata: b\n\n".toList]).2 =
      [ParseEvent.event none none "a".toList, ParseEvent.event none none "b".toList] ∧
    (feed createParser2Reset "data: a\r\ndata: b\n\n".toList).2 = [] ∧
    (feedAll createParser2Reset ["data: a\r".toList, "\ndata: b\n\n".toList]).2 ≠
      (feed createParser2Reset "data: a\r\ndata: b\n\n".toList).2 := by
  refine ⟨by decide, by decide, by decide, by decide⟩

/-- Claim C6 (amended): for carriage-return-free input with no
byte-order-mark prefix, fed in arbitrary chunks, no data event is ever
emitted unless the input contains a blank-line-terminated block: if the
line decomposition of the text has no empty complete line, the decoder
emits no `event` output (reconnect-interval notifications from `retry`
lines are separate notifications, not events). -/
theorem decoder_no_event_without_blank_line (text : List Char)
    (chunks : List (List Char))
    (hjoin : chunks.flatten = text)
    (hcr : ∀ x ∈ text, x ≠ '\r')
    (hbom : hasBom text = false)
    (hnb : [] ∉ (splitNl text).1) :
    ∀ (i n : Option (List Char)) (d : List Char),
    ParseEvent.event i n d ∉ (feedAll createParser2Reset chunks).2 := by
  subst hjoin
  have h1 := feedAll_spec chunks createParser2Reset PInv_init
    (fun ch hch x hx => hcr x (List.mem_flatten.mpr ⟨ch, hch, hx⟩))
    (by
      intro _ ch hd hchunks
      subst hchunks
      cases hhb : hasBom ch with
      | false => rfl
      | true =>
        exfalso
        have h3 := hasBom_append hd.flatten hhb
        rw [List.flatten_cons, h3] at hbom
        simp at hbom)
  intro i n d
  rw [h1.1]
  apply lineSteps_no_event
  intro L hL hLnil
  subst hLnil
  apply hnb
  simpa using hL

/-- Claim C6 witness instance. -/
theorem decoder_no_event_without_blank_line_witness :
    ParseEvent.event none none "x".toList ∉
      (feedAll createParser2Reset ["data: ".toList, "x\n".toList]).2 :=
  decoder_no_event_without_blank_line "data: x\n".toList
    ["data: ".toList, "x\n".toList] (by decide) (by decide) (by decide) (by decide)
    none none "x".toList

/-- Claim C6 counterexample: the claim as stated over every input is false.
The single CRLF-terminated line `"data: a\r\n"` — which contains no blank
line under LF, CRLF or CR line splitting — emits the event `{data:"a"}`
when fed as the chunks `["data: a\r", "\n"]`, because the
`discardTrailingNewline` flag is lost at the chunk boundary and the `\n`
of the CRLF pair is parsed as an empty line. -/
theorem decoder_event_for_incomplete_block_crlf :
    ["data: a\r".toList, "\n".toList].flatten = "data: a\r\n".toList ∧
    (feedAll createParser2Reset ["data: a\r".toList, "\n".toList]).2 =
      [ParseEvent.event none none "a".toList] := by
  refine ⟨by decide, by decide⟩

/-- Claim C8: on a blank-line dispatch the decoder clears the pending
event id only as part of an actual dispatch and resets the pending event
name unconditionally; the chunks `["id: 1\ndata: {"a":1}\n", "\ndata: done\n\n"]`
yield exactly the two events `{id:"1", data:"{"a":1}"}` and `{data:"done"}`
(the second without id), each with the trailing newline removed from its
data. -/
theorem decoder_id_cleared_on_dispatch_example :
    (feedAll createParser2Reset
      ["id: 1\ndata: \x7b\"a\":1\x7d\n".toList, "\ndata: done\n\n".toList]).2 =
      [ParseEvent.event (some "1".toList) none "\x7b\"a\":1\x7d".toList,
        ParseEvent.event none none "done".toList] ∧
    parseEventStreamLine "\n".toList 0 (-1) 0
        { eventId := some "1".toList, eventName := some "ev".toList, data := "x\n".toList } =
      ({ eventId := none, eventName := none, data := [] },
        [ParseEvent.event (some "1".toList) (some "ev".toList) "x".toList]) ∧
    parseEventStreamLine "\n".toList 0 (-1) 0
        { eventId := some "1".toList, eventName := some "ev".toList, data := [] } =
      ({ eventId := some "1".toList, eventName := none, data := [] }, []) := by
  refine ⟨by decide, by decide, by decide⟩

/-! ### The cancelable deadline wrapper pTimeout2 -/

/-- JsNum embeds the JavaScript numbers that reach `pTimeout2` as the
`milliseconds` option: `NaN`, `Infinity` or a finite value. -/
inductive JsNum where
  | nan
  | inf
  | val (z : Int)
  deriving DecidableEq, Repr

/-- JsError embeds a JavaScript error value as observed by the handlers in
the source: its `toString()` rendering and the optional `statusCode`,
`status`, `statusText` and `response.*` fields the catch clauses read. -/
structure JsError where
  str : String
  statusCode : Option Int := none
  status : Option Int := none
  responseStatusCode : Option Int := none
  statusText : Option String := none
  responseStatusText : Option String := none
  deriving DecidableEq, Repr

/-- PTErr is the taxonomy of rejections `pTimeout2` can produce: the
synchronous `TypeError` for invalid durations, the `TimeoutError2`, the
abort rejection from an already-aborted signal, or the wrapped operation's
own rejection. -/
inductive PTErr where
  | typeErr (message : String)
  | timeoutErr (message : String)
  | abortErr
  | opErr (e : JsError)
  deriving DecidableEq, Repr

instance exceptDecEq {ε α : Type} [DecidableEq ε] [DecidableEq α] :
    DecidableEq (Except ε α)
  | Except.ok a, Except.ok b =>
    if h : a = b then isTrue (by rw [h]) else isFalse (by intro hc; cases hc; exact h rfl)
  | Except.ok _, Except.error _ => isFalse (by intro hc; cases hc)
  | Except.error _, Except.ok _ => isFalse (by intro hc; cases hc)
  | Except.error e, Except.error f =>
    if h : e = f then isTrue (by rw [h]) else isFalse (by intro hc; cases hc; exact h rfl)

/-- JsPromise describes the wrapped operation as `pTimeout2` can observe
it: its eventual settlement (value or rejection), the time at which it
settles (`none` when it never settles), and whether it exposes a `cancel`
hook. -/
structure JsPromise (α : Type) where
  result : Except JsError α
  settleTime : Option Nat
  hasCancel : Bool
  deriving DecidableEq, Repr

/-- settlesBefore decides whether an operation with the given settle time
settles strictly before a deadline of `ms` milliseconds (an operation that
never settles does not). -/
def settlesBefore (t : Option Nat) (ms : Nat) : Bool :=
  match t with
  | some n => n < ms
  | none => false

/-- PTimeoutOptions mirrors the options bag of `pTimeout2`: `milliseconds`
(absent models a non-number), the optional `fallback` (embedded by its
outcome), the optional timeout `message` and the optional abort `signal`
(embedded by whether it is already aborted). -/
structure PTimeoutOptions (α : Type) where
  milliseconds : Option JsNum
  fallback : Option (Except JsError α) := none
  message : Option String := none
  signal : Option Bool := none
  deriving DecidableEq, Repr

/-- PTOut is the observable outcome of the wrapper promise: it settles
(with a value or a rejection) or stays pending forever. -/
inductive PTOut (α : Type) where
  | settled (r : Except PTErr α)
  | never
  deriving DecidableEq, Repr

/-- PTResult couples the wrapper outcome with how many times the
operation's `cancel` hook was invoked. -/
structure PTResult (α : Type) where
  out : PTOut α
  cancelCalls : Nat
  deriving DecidableEq, Repr

/-- timeoutMessage is the `errorMessage` computation of `pTimeout2`. -/
def timeoutMessage (message : Option String) (z : Int) : String :=
  match message with
  | some m => m
  | none => "Promise timed out after " ++ toString z ++ " milliseconds"

/-- pTimeout2 mirrors the wrapper of the same name: a non-number or
non-positive duration rejects synchronously with a `TypeError` without
consulting the operation; `Infinity` resolves straight through to the
operation with no timer armed; otherwise the timer races the operation,
and when the timer fires first it runs the fallback if one was given, else
invokes the operation's `cancel` hook (when present) exactly once and
rejects with the timeout error.  An already-aborted signal rejects
immediately, but the timer was still armed and clears only when the
operation settles. -/
def pTimeout2 {α : Type} (promise : JsPromise α) (options : PTimeoutOptions α) :
    PTResult α :=
  match options.milliseconds with
  | none =>
    { out := .settled (.error (.typeErr "Expected milliseconds to be a positive number")),
      cancelCalls := 0 }
  | some JsNum.nan =>
    { out := .settled (.error (.typeErr "Expected milliseconds to be a positive number")),
      cancelCalls := 0 }
  | some JsNum.inf =>
    { out := if promise.settleTime = none then PTOut.never
        else PTOut.settled (promise.result.mapError PTErr.opErr),
      cancelCalls := 0 }
  | some (JsNum.val z) =>
    if z ≤ 0 then
      { out := .settled (.error (.typeErr "Expected milliseconds to be a positive number")),
        cancelCalls := 0 }
    else
      let cancels :=
        if (!settlesBefore promise.settleTime z.toNat) && options.fallback.isNone &&
            promise.hasCancel then 1 else 0
      if options.signal = some true then
        { out := .settled (.error .abortErr), cancelCalls := cancels }
      else if settlesBefore promise.settleTime z.toNat then
        { out := .settled (promise.result.mapError PTErr.opErr), cancelCalls := 0 }
      else
        match options.fallback with
        | some fb => { out := .settled (fb.mapError PTErr.opErr), cancelCalls := 0 }
        | none =>
          { out := .settled (.error (.timeoutErr (timeoutMessage options.message z))),
            cancelCalls := if promise.hasCancel then 1 else 0 }

/-- Claim C5: the deadline wrapper resolves with the operation's result
when the operation settles first; when the duration elapses first it fails
with a timeout error and invokes the operation's cancellation hook exactly
once; a non-positive (for example zero) duration is rejected immediately
as a `TypeError` without running the operation (the outcome does not
depend on the operation at all); an infinite duration degenerates to plain
pass-through with no timer armed and the hook never invoked. -/
theorem pTimeout2_contract :
    (∀ (α : Type) (p : JsPromise α) (o : PTimeoutOptions α) (z : Int),
      o.milliseconds = some (JsNum.val z) → 0 < z → o.signal = none →
      settlesBefore p.settleTime z.toNat = true →
      pTimeout2 p o =
        { out := PTOut.settled (p.result.mapError PTErr.opErr), cancelCalls := 0 }) ∧
    (∀ (α : Type) (p : JsPromise α) (o : PTimeoutOptions α) (z : Int),
      o.milliseconds = some (JsNum.val z) → 0 < z → o.signal = none →
      o.fallback = none → settlesBefore p.settleTime z.toNat = false →
      p.hasCancel = true →
      pTimeout2 p o =
        { out := PTOut.settled (Except.error (PTErr.timeoutErr (timeoutMessage o.message z))),
          cancelCalls := 1 }) ∧
    (∀ (α : Type) (p p2 : JsPromise α) (o : PTimeoutOptions α),
      o.milliseconds = some (JsNum.val 0) →
      pTimeout2 p o = pTimeout2 p2 o ∧
      pTimeout2 p o =
        { out := PTOut.settled (Except.error
            (PTErr.typeErr "Expected milliseconds to be a positive number")),
          cancelCalls := 0 }) ∧
    (∀ (α : Type) (p : JsPromise α) (o : PTimeoutOptions α),
      o.milliseconds = some JsNum.inf →
      pTimeout2 p o =
        { out := if p.settleTime = none then PTOut.never
            else PTOut.settled (p.result.mapError PTErr.opErr),
          cancelCalls := 0 }) := by
  refine ⟨?_, ?_, ?_, ?_⟩
  · intro α p o z hms hz hsig hst
    simp only [pTimeout2, hms, hsig]
    rw [if_neg (by omega)]
    simp [hst]
  · intro α p o z hms hz hsig hfb hst hc
    simp only [pTimeout2, hms, hsig, hfb]
    rw [if_neg (by omega)]
    simp [hst, hc]
  · intro α p p2 o hms
    constructor
    · simp [pTimeout2, hms]
    · simp [pTimeout2, hms]
  · intro α p o hms
    simp [pTimeout2, hms]

/-- Claim C5 witness instances. -/
theorem pTimeout2_contract_witness :
    pTimeout2 (⟨Except.ok 7, some 3, false⟩ : JsPromise Nat)
        ⟨some (JsNum.val 10), none, none, none⟩ =
      { out := PTOut.settled (Except.ok 7), cancelCalls := 0 } ∧
    pTimeout2 (⟨Except.ok 7, none, true⟩ : JsPromise Nat)
        ⟨some (JsNum.val 10), none, some "ChatGPT timed out waiting for response", none⟩ =
      { out := PTOut.settled (Except.error
          (PTErr.timeoutErr "ChatGPT timed out waiting for response")),
        cancelCalls := 1 } ∧
    pTimeout2 (⟨Except.ok 7, some 3, true⟩ : JsPromise Nat)
        ⟨some (JsNum.val 0), none, none, none⟩ =
      pTimeout2 (⟨Except.ok 8, none, false⟩ : JsPromise Nat)
        ⟨some (JsNum.val 0), none, none, none⟩ ∧
    pTimeout2 (⟨Except.ok 7, some 3, false⟩ : JsPromise Nat)
        ⟨some JsNum.inf, none, none, none⟩ =
      { out := PTOut.settled (Except.ok 7), cancelCalls := 0 } := by
  refine ⟨?_, ?_, ?_, ?_⟩
  · exact pTimeout2_contract.1 Nat ⟨Except.ok 7, some 3, false⟩
      ⟨some (JsNum.val 10), none, none, none⟩ 10 rfl (by decide) rfl (by decide)
  · exact pTimeout2_contract.2.1 Nat ⟨Except.ok 7, none, true⟩
      ⟨some (JsNum.val 10), none, some "ChatGPT timed out waiting for response", none⟩ 10
      rfl (by decide) rfl rfl (by decide) rfl
  · exact (pTimeout2_contract.2.2.1 Nat ⟨Except.ok 7, some 3, true⟩
      ⟨Except.ok 8, none, false⟩ ⟨some (JsNum.val 0), none, none, none⟩ rfl).1
  · have h := pTimeout2_contract.2.2.2 Nat ⟨Except.ok 7, some 3, false⟩
      ⟨some JsNum.inf, none, none, none⟩ rfl
    rw [h]
    rfl

/-! ### browserPostEventStream

The function is injected into the browser page and drives one
send-message exchange: it fetches the conversation endpoint, feeds the
body chunks to a `createParser2` instance, accumulates the running
`response`/`conversationId`/`messageId` variables in the parser callback,
and awaits a promise that the `[DONE]` sentinel resolves.  The fetch, the
JSON parsing of payloads and the progress window handler are scripted
inputs of the embedding. -/

/-- ConvoMessage embeds the parts of `convoResponseEvent.message` that the
`onMessage` handlers read: `message.id` and `message.content.parts[0]`
(an absent field is `none`). -/
structure ConvoMessage where
  id : Option (List Char) := none
  parts0 : Option (List Char) := none
  deriving DecidableEq, Repr

/-- ConvoResponseEvent embeds a successfully parsed payload through the
fields the handlers read: `conversation_id` and `message`. -/
structure ConvoResponseEvent where
  conversation_id : Option (List Char) := none
  message : Option ConvoMessage := none
  deriving DecidableEq, Repr

/-- JsonParse scripts the outcome of `JSON.parse(data)` on one payload:
the parse throws, or returns `null` (a falsy value), or returns a parsed
object. -/
inductive JsonParse where
  | throwErr (e : JsError)
  | nullish
  | val (ev : ConvoResponseEvent)
  deriving DecidableEq, Repr

/-- Snapshot is the success value of `browserPostEventStream`: the object
`\x7bresponse, conversationId, messageId\x7d` that `resolve` receives. -/
structure Snapshot where
  response : List Char
  conversationId : Option (List Char)
  messageId : Option (List Char)
  deriving DecidableEq, Repr

/-- ProgressSnapshot is the `partialChatResponse` object passed to the
`window.ChatGPTAPIBrowserOnProgress` handler. -/
structure ProgressSnapshot where
  origMessageId : Option (List Char)
  response : List Char
  conversationId : Option (List Char)
  messageId : Option (List Char)
  deriving DecidableEq, Repr

/-- BpesState carries the mutable variables of `browserPostEventStream`
(`response`, `conversationId`, `messageId`), the latched settlement of
`responseP` (`none` while pending), and the trace of progress-handler
invocations. -/
structure BpesState where
  response : List Char
  conversationId : Option (List Char)
  messageId : Option (List Char)
  settled : Option (Except JsError Snapshot)
  progressCalls : List ProgressSnapshot
  deriving DecidableEq, Repr

/-- latchResolve embeds `resolve(s)`: promise settlement is first-wins,
so a later call on an already settled promise changes nothing. -/
def latchResolve (st : BpesState) (s : Snapshot) : BpesState :=
  match st.settled with
  | some _ => st
  | none => { st with settled := some (Except.ok s) }

/-- latchReject embeds `reject(e)`: first-wins, like `latchResolve`. -/
def latchReject (st : BpesState) (e : JsError) : BpesState :=
  match st.settled with
  | some _ => st
  | none => { st with settled := some (Except.error e) }

/-- jsTruthyStr decides JavaScript truthiness of an optional string field:
an absent field and the empty string are falsy. -/
def jsTruthyStr (o : Option (List Char)) : Bool :=
  match o with
  | some s => !s.isEmpty
  | none => false

/-- bpesUpdateIds is the first half of the payload handling of `onMessage`
in `browserPostEventStream`: a truthy `conversation_id` and a truthy
`message.id` overwrite the running ids. -/
def bpesUpdateIds (ev : ConvoResponseEvent) (st : BpesState) : BpesState :=
  let st1 := if jsTruthyStr ev.conversation_id then
      { st with conversationId := ev.conversation_id } else st
  let mid := match ev.message with
    | some m => m.id
    | none => none
  if jsTruthyStr mid then { st1 with messageId := mid } else st1

/-- bpesApplyParts is the second half of the payload handling: a truthy
`message.content.parts[0]` replaces the running response wholesale and,
when the progress window handler is installed, the handler is awaited on
the updated snapshot; a throwing await rejects the response promise. -/
def bpesApplyParts (hasProgressHandler : Bool)
    (progressThrow : Nat → Option JsError) (origMessageId : Option (List Char))
    (ev : ConvoResponseEvent) (st : BpesState) : BpesState :=
  let partResp := match ev.message with
    | some m => m.parts0
    | none => none
  match partResp with
  | none => st
  | some p =>
    if p.isEmpty then st
    else
      let st3 := { st with response := p }
      if hasProgressHandler then
        let st4 := { st3 with progressCalls := st3.progressCalls ++
          [⟨origMessageId, st3.response, st3.conversationId, st3.messageId⟩] }
        match progressThrow st3.progressCalls.length with
        | some e => latchReject st4 e
        | none => st4
      else st3

/-- bpesOnMessage mirrors `onMessage` of `browserPostEventStream` (source
lines 199-246).  The `[DONE]` sentinel resolves with the current snapshot
before any parsing.  A payload whose `JSON.parse` throws is skipped with a
console warning; a falsy parse result is skipped by the
`!convoResponseEvent` guard.  Otherwise the id updates and the response
replacement run (`progressThrow n` scripts whether progress invocation
number `n` throws; the id and response assignments themselves cannot
throw). -/
def bpesOnMessage (parseJson : List Char → JsonParse)
    (hasProgressHandler : Bool) (progressThrow : Nat → Option JsError)
    (origMessageId : Option (List Char)) (st : BpesState)
    (data : List Char) : BpesState :=
  if data = "[DONE]".toList then
    latchResolve st ⟨st.response, st.conversationId, st.messageId⟩
  else
    match parseJson data with
    | JsonParse.throwErr _ => st
    | JsonParse.nullish => st
    | JsonParse.val ev =>
      bpesApplyParts hasProgressHandler progressThrow origMessageId ev
        (bpesUpdateIds ev st)

/-- eventDatas extracts the payloads handed to `onMessage`: the parser
callback of `browserPostEventStream` forwards `event.data` only for events
of type `event`, not for reconnect-interval notifications (source lines
247-251). -/
def eventDatas (events : List ParseEvent) : List (List Char) :=
  events.filterMap (fun e =>
    match e with
    | ParseEvent.event _ _ d => some d
    | ParseEvent.reconnectInterval _ => none)

/-- StreamEnd records how the iteration over the body stream finishes:
normally, or by an error thrown out of the chunk loop (for example the
`TypeError: terminated` produced when the transport is torn down). -/
inductive StreamEnd where
  | normal
  | errorEnd (e : JsError)
  deriving DecidableEq, Repr

/-- FetchResult scripts the `fetch` call: it throws, or yields a response
with its `ok` flag, `status`, `statusText`, the decoded body chunks, and
the way the body stream ends. -/
inductive FetchResult where
  | fetchThrow (e : JsError)
  | response (ok : Bool) (status : Option Int) (statusText : Option String)
      (chunks : List (List Char)) (ending : StreamEnd)
  deriving DecidableEq, Repr

/-- BpesCtx gathers the scripted environment of one
`browserPostEventStream` call: the ids taken from the request body, the
`timeoutMs` argument (`0` embeds the falsy absent timeout), the fetch
outcome, the `JSON.parse` script, the progress-handler installation and
throw script, and the wall-clock instant at which the response promise
settles when it does (raced against the timeout by `pTimeout2`). -/
structure BpesCtx where
  bodyConversationId : Option (List Char)
  bodyMessageId : Option (List Char)
  timeoutMs : Nat
  fetchResult : FetchResult
  parseJson : List Char → JsonParse
  hasProgressHandler : Bool
  progressThrow : Nat → Option JsError
  streamTime : Nat

/-- bpesInitState is the variable state right after entry: empty response
and the ids read from the body (source lines 164-167). -/
def bpesInitState (ctx : BpesCtx) : BpesState :=
  ⟨[], ctx.bodyConversationId, ctx.bodyMessageId, none, []⟩

/-- bpesProcessState is the state of the executor's variables after the
body stream has been consumed: each decoded event's data is handed to
`onMessage` in order.  When the fetch throws or reports a non-ok status
the executor never runs and the state is the entry state.  The way the
stream ends does not influence the state: an error thrown by the chunk
loop inside the `async` promise executor rejects only the executor's own
ignored async-function promise, never `responseP` — this lost rejection
is the unreachable-branch bug recorded by the C3 theorem. -/
def bpesProcessState (ctx : BpesCtx) : BpesState :=
  match ctx.fetchResult with
  | FetchResult.fetchThrow _ => bpesInitState ctx
  | FetchResult.response ok _ _ chunks _ =>
    if ok then
      (eventDatas (feedAll createParser2Reset chunks).2).foldl
        (bpesOnMessage ctx.parseJson ctx.hasProgressHandler ctx.progressThrow
          ctx.bodyMessageId)
        (bpesInitState ctx)
    else bpesInitState ctx

/-- ChatErrorBody is the `error` object of a failure return value:
`\x7bmessage, statusCode, statusText\x7d`. -/
structure ChatErrorBody where
  message : String
  statusCode : Option Int
  statusText : Option String
  deriving DecidableEq, Repr

/-- BpesOutcome classifies what the caller of `browserPostEventStream`
observes: a returned snapshot, a returned error record (carrying the ids),
or `never` — the run in which the awaited response promise never settles,
so the call never returns at all. -/
inductive BpesOutcome where
  | success (s : Snapshot)
  | errorResult (error : ChatErrorBody)
      (conversationId messageId : Option (List Char))
  | never
  deriving DecidableEq, Repr

/-- jsOrInt embeds `a || b` on optional numbers: `0` and an absent value
are falsy. -/
def jsOrInt (a b : Option Int) : Option Int :=
  match a with
  | some x => if x = 0 then b else some x
  | none => b

/-- jsOrStr embeds `a || b` on optional strings: the empty string and an
absent value are falsy. -/
def jsOrStr (a b : Option String) : Option String :=
  match a with
  | some x => if x = "" then b else some x
  | none => b

/-- jsRenderStr renders an optional string in a template literal:
`undefined` interpolates as the text "undefined". -/
def jsRenderStr (o : Option String) : String :=
  match o with
  | some t => t
  | none => "undefined"

/-- statusDisplay renders `$\x7bres.status || res.statusText\x7d` of the non-ok
early return: a truthy (non-zero, present) status renders as its decimal
text, otherwise the statusText is interpolated. -/
def statusDisplay (status : Option Int) (statusText : Option String) : String :=
  match status with
  | some z => if z = 0 then jsRenderStr statusText else toString z
  | none => jsRenderStr statusText

/-- ptErrToJsError renders a rejection of the deadline wrapper as the error
value the catch clause observes via `err.toString()`: the `TimeoutError2`
and `AbortError` classes set their `name` accordingly, a `TypeError` keeps
its own name, and an operation rejection is the original error. -/
def ptErrToJsError : PTErr → JsError
  | PTErr.typeErr m => { str := "TypeError: " ++ m }
  | PTErr.timeoutErr m => { str := "TimeoutError: " ++ m }
  | PTErr.abortErr => { str := "AbortError: This operation was aborted." }
  | PTErr.opErr e => e

/-- BpesTryOut records how the `try` block of `browserPostEventStream`
concludes: a `return` with a value, an exception that reaches the catch
clause, or an await that never finishes. -/
inductive BpesTryOut where
  | retval (v : BpesOutcome)
  | thrownE (e : JsError)
  | neverOut
  deriving DecidableEq, Repr

/-- bpesResponseP packages the fate of `responseP` for the race inside
`pTimeout2`: its settlement (immaterial when it never settles), the
settle instant, and the `cancel` hook, which is installed whenever a
truthy `timeoutMs` created the abort controller (source lines 258-264). -/
def bpesResponseP (ctx : BpesCtx) : JsPromise Snapshot :=
  { result := match (bpesProcessState ctx).settled with
      | some r => r
      | none => Except.error { str := "unsettled" },
    settleTime := match (bpesProcessState ctx).settled with
      | some _ => some ctx.streamTime
      | none => none,
    hasCancel := true }

/-- bpesTry mirrors the try block (source lines 168-271): a throwing fetch
raises; a non-ok response returns the error record built from the status;
otherwise the stream is processed and the response promise is awaited —
through `pTimeout2` when `timeoutMs` is truthy, directly otherwise.  An
await of a never-settling promise never concludes. -/
def bpesTry (ctx : BpesCtx) : BpesTryOut :=
  match ctx.fetchResult with
  | FetchResult.fetchThrow e => BpesTryOut.thrownE e
  | FetchResult.response ok status statusText _ _ =>
    if ok then
      if ctx.timeoutMs ≠ 0 then
        match (pTimeout2 (bpesResponseP ctx)
            { milliseconds := some (JsNum.val (ctx.timeoutMs : Int)),
              message := some "ChatGPT timed out waiting for response" }).out with
        | PTOut.never => BpesTryOut.neverOut
        | PTOut.settled (Except.ok s) => BpesTryOut.retval (BpesOutcome.success s)
        | PTOut.settled (Except.error pe) => BpesTryOut.thrownE (ptErrToJsError pe)
      else
        match (bpesProcessState ctx).settled with
        | some (Except.ok s) => BpesTryOut.retval (BpesOutcome.success s)
        | some (Except.error e) => BpesTryOut.thrownE e
        | none => BpesTryOut.neverOut
    else
      BpesTryOut.retval (BpesOutcome.errorResult
        { message := "ChatGPTAPI error " ++ statusDisplay status statusText,
          statusCode := status, statusText := statusText }
        ctx.bodyConversationId ctx.bodyMessageId)

/-- lcChar lowercases one ASCII letter, as `String.toLowerCase` does on
the ASCII error strings the catch clause compares. -/
def lcChar (c : Char) : Char :=
  if 'A' ≤ c ∧ c ≤ 'Z' then Char.ofNat (c.toNat + 32) else c

/-- jsToLower embeds `toLowerCase()` on the (ASCII) error strings. -/
def jsToLower (s : String) : String :=
  String.mk (s.data.map lcChar)

/-- catchClause mirrors the catch handler (source lines 272-290): a
`terminated` type error with a non-empty partial response returns the
snapshot; every other error returns the error record with
`statusCode = err.statusCode || err.status || err.response?.statusCode`
and `statusText = err.statusText || err.response?.statusText`, both forms
carrying the current ids. -/
def catchClause (e : JsError) (st : BpesState) : BpesOutcome :=
  if st.response ≠ [] ∧ (jsToLower e.str = "error: typeerror: terminated" ∨
      jsToLower e.str = "typeerror: terminated") then
    BpesOutcome.success ⟨st.response, st.conversationId, st.messageId⟩
  else
    BpesOutcome.errorResult
      { message := e.str,
        statusCode := jsOrInt e.statusCode (jsOrInt e.status e.responseStatusCode),
        statusText := jsOrStr e.statusText e.responseStatusText }
      st.conversationId st.messageId

/-- browserPostEventStream assembles the whole call (source lines
147-290): the try block's return value passes through, a thrown error
lands in the catch clause over the current variable state, and a
never-concluding await means the call never returns.  The pair also
exposes the final variable state for the theorems. -/
def browserPostEventStream (ctx : BpesCtx) : BpesOutcome × BpesState :=
  match bpesTry ctx with
  | BpesTryOut.retval v => (v, bpesProcessState ctx)
  | BpesTryOut.thrownE e => (catchClause e (bpesProcessState ctx), bpesProcessState ctx)
  | BpesTryOut.neverOut => (BpesOutcome.never, bpesProcessState ctx)

/-- parseJsonC3 scripts `JSON.parse` for the C3 scenario payloads: two
well-formed progress snapshots; anything else throws a syntax error. -/
def parseJsonC3 : List Char → JsonParse := fun s =>
  if s = "p1".toList then
    JsonParse.val ⟨some "c1".toList, some ⟨some "m1".toList, some "First".toList⟩⟩
  else if s = "p2".toList then
    JsonParse.val ⟨none, some ⟨none, some "First second".toList⟩⟩
  else JsonParse.throwErr { str := "SyntaxError: Unexpected token" }

/-- ctxC3 scripts the C3 scenario: the transport streams two progress
snapshots and then terminates (`TypeError: terminated`) without a `[DONE]`
sentinel; no user timeout is configured. -/
def ctxC3 : BpesCtx :=
  { bodyConversationId := none,
    bodyMessageId := some "orig".toList,
    timeoutMs := 0,
    fetchResult := FetchResult.response true (some 200) (some "OK")
      ["data: p1\n\n".toList, "data: p2\n\n".toList]
      (StreamEnd.errorEnd { str := "TypeError: terminated" }),
    parseJson := parseJsonC3,
    hasProgressHandler := false,
    progressThrow := fun _ => none,
    streamTime := 50 }

/-- ctxC3done is the same scenario with a final `[DONE]` sentinel and a
normal stream end. -/
def ctxC3done : BpesCtx :=
  { ctxC3 with fetchResult := (FetchResult.response true (some 200) (some "OK")
      ["data: p1\n\n".toList, "data: p2\n\n".toList, "data: [DONE]\n\n".toList]
      StreamEnd.normal) }

/-- ctxC3timeout is `ctxC3` with a 1000 ms timeout configured. -/
def ctxC3timeout : BpesCtx := { ctxC3 with timeoutMs := 1000 }

/-- Claim C3 (code bug): on the terminal `[DONE]` sentinel the call does
resolve with the last known snapshot, but when the transport terminates
after two streamed snapshots without the sentinel, the call never resolves
at all even though the last snapshot (`First second`, conversation `c1`,
message `m1`) is held in the variables: the termination error is raised
inside the `async` promise executor and its rejection is lost, so the
`terminated, partial response present, return last snapshot` branch of the
catch clause (source lines 273-280) is unreachable from stream errors and
`responseP` stays pending forever.  With a timeout configured the caller
gets a timeout error record instead of the snapshot. -/
theorem bpes_resolves_on_done_but_hangs_on_termination :
    (browserPostEventStream ctxC3done).1 =
      BpesOutcome.success
        ⟨"First second".toList, some "c1".toList, some "m1".toList⟩ ∧
    (browserPostEventStream ctxC3).1 = BpesOutcome.never ∧
    (browserPostEventStream ctxC3).2.response = "First second".toList ∧
    (browserPostEventStream ctxC3).2.conversationId = some "c1".toList ∧
    (browserPostEventStream ctxC3).2.messageId = some "m1".toList ∧
    (browserPostEventStream ctxC3).2.settled = none ∧
    (browserPostEventStream ctxC3timeout).1 =
      BpesOutcome.errorResult
        { message := "TimeoutError: ChatGPT timed out waiting for response",
          statusCode := none, statusText := none }
        (some "c1".toList) (some "m1".toList) := by
  decide

theorem catchClause_shape (e : JsError) (st : BpesState) :
    catchClause e st =
      BpesOutcome.success ⟨st.response, st.conversationId, st.messageId⟩ ∨
    ∃ b, catchClause e st =
      BpesOutcome.errorResult b st.conversationId st.messageId := by
  unfold catchClause
  split
  · exact Or.inl rfl
  · exact Or.inr ⟨_, rfl⟩

theorem pTimeout2_ok_result {α : Type} (p : JsPromise α) (o : PTimeoutOptions α)
    (z : Int) (s : α) (hms : o.milliseconds = some (JsNum.val z))
    (hsig : o.signal ≠ some true) (hfb : o.fallback = none)
    (h : (pTimeout2 p o).out = PTOut.settled (Except.ok s)) :
    p.result = Except.ok s := by
  unfold pTimeout2 at h
  rw [hms] at h
  dsimp only at h
  by_cases hz : z ≤ 0
  · rw [if_pos hz] at h
    simp at h
  · rw [if_neg hz] at h
    rw [if_neg hsig] at h
    by_cases hsb : settlesBefore p.settleTime z.toNat = true
    · rw [if_pos hsb] at h
      dsimp only at h
      rcases hr : p.result with e1 | a
      · rw [hr] at h
        simp [Except.mapError] at h
      · rw [hr] at h
        simp [Except.mapError] at h
        rw [h]
    · rw [if_neg hsb] at h
      rw [hfb] at h
      simp at h


theorem bpes_outcome_cases (ctx : BpesCtx) :
    (∃ s, (browserPostEventStream ctx).1 = BpesOutcome.success s ∧
      ((bpesProcessState ctx).settled = some (Except.ok s) ∨
       (s.conversationId = (bpesProcessState ctx).conversationId ∧
        s.messageId = (bpesProcessState ctx).messageId))) ∨
    (∃ b, (browserPostEventStream ctx).1 =
      BpesOutcome.errorResult b (bpesProcessState ctx).conversationId
        (bpesProcessState ctx).messageId) ∨
    ((browserPostEventStream ctx).1 = BpesOutcome.never ∧
      ∀ e, bpesTry ctx ≠ BpesTryOut.thrownE e) := by
  rcases htry : bpesTry ctx with v | e | _
  · -- the try block returned a value
    have hres : (browserPostEventStream ctx).1 = v := by
      unfold browserPostEventStream
      simp only [htry]
    unfold bpesTry at htry
    rcases hf : ctx.fetchResult with e | ⟨ok, status, statusText, chunks, ending⟩
    · simp only [hf] at htry
      cases htry
    · simp only [hf] at htry
      by_cases hok : ok = true
      · rw [if_pos hok] at htry
        by_cases ht : ctx.timeoutMs ≠ 0
        · rw [if_pos ht] at htry
          rcases hpt : (pTimeout2 (bpesResponseP ctx)
              { milliseconds := some (JsNum.val (ctx.timeoutMs : Int)),
                message := some "ChatGPT timed out waiting for response" }).out
              with r | _
          · rcases r with pe | s
            · simp only [hpt] at htry
              cases htry
            · simp only [hpt] at htry
              injection htry with hv
              have hresult : (bpesResponseP ctx).result = Except.ok s :=
                pTimeout2_ok_result _ _ (ctx.timeoutMs : Int) s rfl (by simp) rfl hpt
              have hset : (bpesProcessState ctx).settled = some (Except.ok s) := by
                unfold bpesResponseP at hresult
                dsimp only at hresult
                rcases hs : (bpesProcessState ctx).settled with _ | r2
                · rw [hs] at hresult
                  cases hresult
                · rw [hs] at hresult
                  dsimp only at hresult
                  rw [hresult]
              exact Or.inl ⟨s, by rw [hres, ← hv], Or.inl hset⟩
          · simp only [hpt] at htry
            cases htry
        · rw [if_neg ht] at htry
          rcases hs : (bpesProcessState ctx).settled with _ | r
          · simp only [hs] at htry
            cases htry
          · rcases r with e1 | s1
            · simp only [hs] at htry
              cases htry
            · simp only [hs] at htry
              injection htry with hv
              exact Or.inl ⟨s1, by rw [hres, ← hv], Or.inl rfl⟩
      · rw [if_neg hok] at htry
        injection htry with hv
        have hst : bpesProcessState ctx = bpesInitState ctx := by
          unfold bpesProcessState
          simp only [hf]
          rw [if_neg hok]
        refine Or.inr (Or.inl
          ⟨{ message := "ChatGPTAPI error " ++ statusDisplay status statusText,
             statusCode := status, statusText := statusText }, ?_⟩)
        rw [hres, ← hv, hst]
        rfl
  · -- the try block threw: the catch clause converts the error
    have hres : (browserPostEventStream ctx).1 =
        catchClause e (bpesProcessState ctx) := by
      unfold browserPostEventStream
      simp only [htry]
    rcases catchClause_shape e (bpesProcessState ctx) with h | ⟨b, h⟩
    · exact Or.inl ⟨_, by rw [hres, h], Or.inr ⟨rfl, rfl⟩⟩
    · exact Or.inr (Or.inl ⟨b, by rw [hres, h]⟩)
  · -- the awaited promise never settles
    have hres : (browserPostEventStream ctx).1 = BpesOutcome.never := by
      unfold browserPostEventStream
      simp only [htry]
    refine Or.inr (Or.inr ⟨hres, ?_⟩)
    intro e he
    cases he

/-- Claim C10: `browserPostEventStream` never throws to its caller — every
exception raised inside it is converted by the catch clause into a
returned value, so whenever the try block throws the call still returns a
snapshot or an error record (it is `never` only when the awaited promise
never settles, which is not a throw); every returned error record carries
the last-known conversation and message ids of the processing state; and
every returned snapshot is either the value the response promise resolved
with or the catch clause's snapshot of the last-known state, which carries
those same ids. -/
theorem browserPostEventStream_no_throw (ctx : BpesCtx) :
    (∀ e, bpesTry ctx = BpesTryOut.thrownE e →
      (browserPostEventStream ctx).1 ≠ BpesOutcome.never) ∧
    (∀ b cid mid,
      (browserPostEventStream ctx).1 = BpesOutcome.errorResult b cid mid →
      cid = (bpesProcessState ctx).conversationId ∧
      mid = (bpesProcessState ctx).messageId) ∧
    (∀ s, (browserPostEventStream ctx).1 = BpesOutcome.success s →
      (bpesProcessState ctx).settled = some (Except.ok s) ∨
      (s.conversationId = (bpesProcessState ctx).conversationId ∧
       s.messageId = (bpesProcessState ctx).messageId)) := by
  rcases bpes_outcome_cases ctx with ⟨s, hs, hrel⟩ | ⟨b, hb⟩ | ⟨hn, hne⟩
  · refine ⟨?_, ?_, ?_⟩
    · intro e _
      rw [hs]
      simp
    · intro b cid mid h
      rw [hs] at h
      cases h
    · intro s' h
      rw [hs] at h
      injection h with h1
      subst h1
      exact hrel
  · refine ⟨?_, ?_, ?_⟩
    · intro e _
      rw [hb]
      simp
    · intro b' cid mid h
      rw [hb] at h
      injection h with h1 h2 h3
      exact ⟨h2.symm, h3.symm⟩
    · intro s h
      rw [hb] at h
      cases h
  · refine ⟨?_, ?_, ?_⟩
    · intro e he
      exact absurd he (hne e)
    · intro b cid mid h
      rw [hn] at h
      cases h
    · intro s h
      rw [hn] at h
      cases h

/-- ctxC10w scripts a throwing fetch with known body ids, witnessing the
C10 theorem. -/
def ctxC10w : BpesCtx :=
  { bodyConversationId := some "bc".toList,
    bodyMessageId := some "bm".toList,
    timeoutMs := 0,
    fetchResult := FetchResult.fetchThrow { str := "TypeError: Failed to fetch" },
    parseJson := fun _ => JsonParse.nullish,
    hasProgressHandler := false,
    progressThrow := fun _ => none,
    streamTime := 0 }

/-- Claim C10 witness: a concrete throwing fetch still yields a returned
error record, never a hang, and the record carries the body ids. -/
theorem browserPostEventStream_no_throw_witness :
    bpesTry ctxC10w = BpesTryOut.thrownE { str := "TypeError: Failed to fetch" } ∧
    (browserPostEventStream ctxC10w).1 ≠ BpesOutcome.never ∧
    some "bc".toList = (bpesProcessState ctxC10w).conversationId ∧
    some "bm".toList = (bpesProcessState ctxC10w).messageId := by
  refine ⟨by decide, (browserPostEventStream_no_throw ctxC10w).1
    { str := "TypeError: Failed to fetch" } (by decide), ?_, ?_⟩
  · exact ((browserPostEventStream_no_throw ctxC10w).2.1
      { message := "TypeError: Failed to fetch", statusCode := none, statusText := none }
      (some "bc".toList) (some "bm".toList) (by decide)).1
  · exact ((browserPostEventStream_no_throw ctxC10w).2.1
      { message := "TypeError: Failed to fetch", statusCode := none, statusText := none }
      (some "bc".toList) (some "bm".toList) (by decide)).2

theorem latchReject_fields (st : BpesState) (e : JsError) :
    (latchReject st e).response = st.response ∧
    (latchReject st e).conversationId = st.conversationId ∧
    (latchReject st e).messageId = st.messageId ∧
    (latchReject st e).progressCalls = st.progressCalls := by
  unfold latchReject
  split <;> exact ⟨rfl, rfl, rfl, rfl⟩

theorem bpesUpdateIds_conversationId {ev : ConvoResponseEvent} {c : List Char}
    (st : BpesState) (hc : ev.conversation_id = some c) (hne : c ≠ []) :
    (bpesUpdateIds ev st).conversationId = some c := by
  have h1 : jsTruthyStr ev.conversation_id = true := by
    rw [hc]
    cases c with
    | nil => exact absurd rfl hne
    | cons a t => rfl
  unfold bpesUpdateIds
  rw [h1]
  dsimp only
  split <;> simp [hc]

theorem bpesUpdateIds_messageId {ev : ConvoResponseEvent} {m : ConvoMessage}
    {i : List Char} (st : BpesState) (hm : ev.message = some m)
    (hid : m.id = some i) (hne : i ≠ []) :
    (bpesUpdateIds ev st).messageId = some i := by
  have h1 : jsTruthyStr (some i) = true := by
    cases i with
    | nil => exact absurd rfl hne
    | cons a t => rfl
  unfold bpesUpdateIds
  simp only [hm, hid, h1]
  simp

theorem bpesUpdateIds_other (ev : ConvoResponseEvent) (st : BpesState) :
    (bpesUpdateIds ev st).response = st.response ∧
    (bpesUpdateIds ev st).progressCalls = st.progressCalls ∧
    (bpesUpdateIds ev st).settled = st.settled := by
  unfold bpesUpdateIds
  dsimp only
  split <;> split <;> exact ⟨rfl, rfl, rfl⟩

theorem bpesApplyParts_preserve (hp : Bool) (pt : Nat → Option JsError)
    (omid : Option (List Char)) (ev : ConvoResponseEvent) (st : BpesState) :
    (bpesApplyParts hp pt omid ev st).conversationId = st.conversationId ∧
    (bpesApplyParts hp pt omid ev st).messageId = st.messageId := by
  unfold bpesApplyParts
  dsimp only
  split
  · exact ⟨rfl, rfl⟩
  · split
    · exact ⟨rfl, rfl⟩
    · split
      · split
        · rename_i e _
          exact ⟨((latchReject_fields _ e).2.1).trans rfl,
            ((latchReject_fields _ e).2.2.1).trans rfl⟩
        · exact ⟨rfl, rfl⟩
      · exact ⟨rfl, rfl⟩

theorem bpesApplyParts_spec (hp : Bool) (pt : Nat → Option JsError)
    (omid : Option (List Char)) {ev : ConvoResponseEvent} {m : ConvoMessage}
    {p : List Char} (st : BpesState) (hm : ev.message = some m)
    (hp0 : m.parts0 = some p) (hne : p ≠ []) :
    (bpesApplyParts hp pt omid ev st).response = p ∧
    (hp = true → (bpesApplyParts hp pt omid ev st).progressCalls =
      st.progressCalls ++ [⟨omid, p, st.conversationId, st.messageId⟩]) := by
  have hemp : p.isEmpty = false := by
    cases p with
    | nil => exact absurd rfl hne
    | cons a t => rfl
  unfold bpesApplyParts
  simp only [hm, hp0, hemp]
  cases hp with
  | false => simp
  | true =>
    simp only [if_true]
    rcases hpt : pt st.progressCalls.length with _ | e
    · simp [hpt]
    · simp only [hpt]
      refine ⟨((latchReject_fields _ e).1).trans rfl, fun _ => ?_⟩
      exact ((latchReject_fields _ e).2.2.2).trans rfl

/-- ApiState carries the `result` object of `ChatGPTAPI.sendMessage`'s
`fetchSSE` call, the latched settlement of its response promise, and the
trace of `onProgress` invocations (each receives the `result` object). -/
structure ApiState where
  response : List Char
  conversationId : Option (List Char)
  messageId : Option (List Char)
  settled : Option (Except JsError Snapshot)
  progressCalls : List Snapshot
  deriving DecidableEq, Repr

/-- apiLatchResolve embeds `resolve(result)`: first-wins settlement. -/
def apiLatchResolve (st : ApiState) (s : Snapshot) : ApiState :=
  match st.settled with
  | some _ => st
  | none => { st with settled := some (Except.ok s) }

/-- apiLatchReject embeds `reject(err)`: first-wins settlement. -/
def apiLatchReject (st : ApiState) (e : JsError) : ApiState :=
  match st.settled with
  | some _ => st
  | none => { st with settled := some (Except.error e) }

/-- apiOnMessage mirrors the `onMessage` handler of `ChatGPTAPI.sendMessage`
(source lines 669-699).  Unlike the browser variant, `JSON.parse` runs
inside the try block whose catch calls `reject(err)`, so a payload that
fails JSON parsing rejects the response promise instead of being skipped;
a parse producing `null` likewise throws (a TypeError, modelled by its
rendering) on the first property access and rejects.  Otherwise a truthy
`conversation_id` and `message.id` update the result, and a truthy
`message.content.parts[0]` replaces the response — through
`markdownToText` (scripted as `mdText`) when markdown output is disabled —
and invokes `onProgress` with the result. -/
def apiOnMessage (parseJson : List Char → JsonParse) (markdown : Bool)
    (mdText : List Char → List Char) (hasOnProgress : Bool)
    (st : ApiState) (data : List Char) : ApiState :=
  if data = "[DONE]".toList then
    apiLatchResolve st ⟨st.response, st.conversationId, st.messageId⟩
  else
    match parseJson data with
    | JsonParse.throwErr e => apiLatchReject st e
    | JsonParse.nullish =>
      apiLatchReject st { str := "TypeError: null has no properties" }
    | JsonParse.val ev =>
      let st1 := if jsTruthyStr ev.conversation_id then
          { st with conversationId := ev.conversation_id } else st
      let mid := match ev.message with
        | some m => m.id
        | none => none
      let st2 := if jsTruthyStr mid then { st1 with messageId := mid } else st1
      match ev.message with
      | none => st2
      | some m =>
        match m.parts0 with
        | none => st2
        | some t =>
          if t.isEmpty then st2
          else
            let t2 := if markdown then t else mdText t
            let st3 := { st2 with response := t2 }
            if hasOnProgress then
              { st3 with progressCalls := st3.progressCalls ++
                [⟨st3.response, st3.conversationId, st3.messageId⟩] }
            else st3

/-- Claim C7 (amended): in the browser handler (`browserPostEventStream`'s
`onMessage`) a non-sentinel payload that fails JSON parsing is tolerated by
skipping that event — the state is completely unchanged, nothing is
surfaced — while a successfully parsed payload updates the conversation
and message ids when it supplies non-empty ones, replaces the running
response text wholesale with a supplied non-empty snapshot, and invokes
the progress callback on the updated snapshot; but in the `onMessage`
handler of `ChatGPTAPI.sendMessage` a payload that fails JSON parsing is
not tolerated: it rejects the pending response promise with the parse
error, surfacing it to the caller. -/
theorem onmessage_parse_failure_tolerance
    (pj : List Char → JsonParse) (hp : Bool) (pt : Nat → Option JsError)
    (omid : Option (List Char)) (st : BpesState) (data : List Char)
    (hnd : data ≠ "[DONE]".toList) :
    (∀ e, pj data = JsonParse.throwErr e →
      bpesOnMessage pj hp pt omid st data = st) ∧
    (∀ ev, pj data = JsonParse.val ev →
      (∀ c, ev.conversation_id = some c → c ≠ [] →
        (bpesOnMessage pj hp pt omid st data).conversationId = some c) ∧
      (∀ m i, ev.message = some m → m.id = some i → i ≠ [] →
        (bpesOnMessage pj hp pt omid st data).messageId = some i) ∧
      (∀ m p, ev.message = some m → m.parts0 = some p → p ≠ [] →
        (bpesOnMessage pj hp pt omid st data).response = p ∧
        (hp = true →
          (bpesOnMessage pj hp pt omid st data).progressCalls =
            st.progressCalls ++
              [⟨omid, p, (bpesOnMessage pj hp pt omid st data).conversationId,
                (bpesOnMessage pj hp pt omid st data).messageId⟩]))) ∧
    (∀ (mk : Bool) (mdt : List Char → List Char) (hop : Bool)
        (ast : ApiState) (e : JsError),
      pj data = JsonParse.throwErr e → ast.settled = none →
      apiOnMessage pj mk mdt hop ast data =
        { ast with settled := some (Except.error e) }) := by
  refine ⟨?_, ?_, ?_⟩
  · intro e he
    unfold bpesOnMessage
    rw [if_neg hnd]
    simp only [he]
  · intro ev hev
    have hred : bpesOnMessage pj hp pt omid st data =
        bpesApplyParts hp pt omid ev (bpesUpdateIds ev st) := by
      unfold bpesOnMessage
      rw [if_neg hnd]
      simp only [hev]
    refine ⟨?_, ?_, ?_⟩
    · intro c hc hne
      rw [hred, (bpesApplyParts_preserve hp pt omid ev (bpesUpdateIds ev st)).1]
      exact bpesUpdateIds_conversationId st hc hne
    · intro m i hm hid hne
      rw [hred, (bpesApplyParts_preserve hp pt omid ev (bpesUpdateIds ev st)).2]
      exact bpesUpdateIds_messageId st hm hid hne
    · intro m p hm hp0 hne
      have hspec := bpesApplyParts_spec hp pt omid (bpesUpdateIds ev st) hm hp0 hne
      refine ⟨by rw [hred]; exact hspec.1, fun hhp => ?_⟩
      rw [hred, hspec.2 hhp,
        (bpesApplyParts_preserve hp pt omid ev (bpesUpdateIds ev st)).1,
        (bpesApplyParts_preserve hp pt omid ev (bpesUpdateIds ev st)).2,
        (bpesUpdateIds_other ev st).2.1]
  · intro mk mdt hop ast e he hset
    unfold apiOnMessage
    rw [if_neg hnd]
    simp only [he]
    unfold apiLatchReject
    rw [hset]

/-- pjC7 scripts `JSON.parse` for the C7 instances: the payload `ok`
parses to a full snapshot event, everything else throws a syntax error. -/
def pjC7 : List Char → JsonParse := fun s =>
  if s = "ok".toList then
    JsonParse.val ⟨some "c9".toList, some ⟨some "m9".toList, some "Hello".toList⟩⟩
  else JsonParse.throwErr { str := "SyntaxError: Unexpected token o" }

/-- bstC7 is a fresh browser handler state. -/
def bstC7 : BpesState := ⟨[], none, none, none, []⟩

/-- astC7 is a fresh api handler state. -/
def astC7 : ApiState := ⟨[], none, none, none, []⟩

/-- astC7rej is `astC7` with the promise rejected by the parse error. -/
def astC7rej : ApiState :=
  { astC7 with
    settled := some (Except.error { str := "SyntaxError: Unexpected token o" }) }

/-- Claim C7 counterexample: the claim as stated — parse failures are
tolerated by skipping, never surfaced to the caller — is false for the
`onMessage` handler of `ChatGPTAPI.sendMessage` (one of the two handlers
the claim covers): the same malformed payload that the browser handler
skips without any state change rejects the api handler's response promise
with the parse error. -/
theorem api_onmessage_parse_failure_rejects :
    bpesOnMessage pjC7 true (fun _ => none) none bstC7 "oops".toList = bstC7 ∧
    (apiOnMessage pjC7 true (fun l => l) true astC7 "oops".toList).settled =
      some (Except.error { str := "SyntaxError: Unexpected token o" }) := by
  decide

/-- Claim C7 witness instances: a malformed payload leaves the browser
handler state untouched, a well-formed payload applies the id updates and
the wholesale response replacement, and the same malformed payload rejects
the api handler's pending promise. -/
theorem onmessage_parse_failure_tolerance_witness :
    bpesOnMessage pjC7 true (fun _ => none) (some "om".toList) bstC7
      "bad".toList = bstC7 ∧
    (bpesOnMessage pjC7 true (fun _ => none) (some "om".toList) bstC7
      "ok".toList).conversationId = some "c9".toList ∧
    (bpesOnMessage pjC7 true (fun _ => none) (some "om".toList) bstC7
      "ok".toList).messageId = some "m9".toList ∧
    (bpesOnMessage pjC7 true (fun _ => none) (some "om".toList) bstC7
      "ok".toList).response = "Hello".toList ∧
    apiOnMessage pjC7 true (fun l => l) true astC7 "bad".toList = astC7rej := by
  have H := onmessage_parse_failure_tolerance pjC7 true (fun _ => none)
    (some "om".toList) bstC7 "bad".toList (by decide)
  have H2 := onmessage_parse_failure_tolerance pjC7 true (fun _ => none)
    (some "om".toList) bstC7 "ok".toList (by decide)
  have hev : pjC7 "ok".toList = JsonParse.val
      ⟨some "c9".toList, some ⟨some "m9".toList, some "Hello".toList⟩⟩ := by decide
  refine ⟨H.1 { str := "SyntaxError: Unexpected token o" } (by decide), ?_, ?_, ?_,
    H.2.2 true (fun l => l) true astC7
      { str := "SyntaxError: Unexpected token o" } (by decide) (by decide)⟩
  · exact (H2.2.1 _ hev).1 ("c9".toList) rfl (by decide)
  · exact (H2.2.1 _ hev).2.1 ⟨some "m9".toList, some "Hello".toList⟩
      ("m9".toList) rfl rfl (by decide)
  · exact ((H2.2.1 _ hev).2.2 ⟨some "m9".toList, some "Hello".toList⟩
      ("Hello".toList) rfl rfl (by decide)).1

/-! ### ChatGPTAPIBrowser.sendMessage retry loop

The orchestrating `sendMessage` (source lines 1626-1737) registers the
per-message progress handler, then drives a `do ... while (!result)` loop:
each iteration re-authenticates when needed, evaluates
`browserPostEventStream` in the page, and dispatches on its outcome.  In
JavaScript, `continue` inside a `do...while` jumps to the condition check;
the embedding mirrors this control flow exactly, including the fact that
the 401 branch leaves `result` holding the truthy error object while the
403 branch resets `result = null` first. -/

/-- EvalResult scripts one `this._page.evaluate(browserPostEventStream, ...)`
attempt: the evaluate call itself throws, or it returns an error record,
or a success snapshot. -/
inductive EvalResult where
  | evalThrow (e : JsError)
  | errorResult (error : ChatErrorBody)
  | success (s : Snapshot)
  deriving DecidableEq, Repr

/-- ThrowSite is an instrumentation tag recording which `throw` statement
of `sendMessage` produced a surfaced error; it carries no behaviour and
only lets the theorems speak about the individual exit paths. -/
inductive ThrowSite where
  | notSignedIn
  | evalCatch
  | err401
  | errOther
  | err403Final
  deriving DecidableEq, Repr

/-- SendMessageState counts the scripted side effects of one `sendMessage`
call — `getIsAuthenticated`, `resetSession`, `refreshSession` and
`evaluate` invocations — and tracks whether the per-message progress
handler registration is still present in the registry. -/
structure SendMessageState where
  authCalls : Nat
  resetCalls : Nat
  refreshCalls : Nat
  evalCalls : Nat
  handlerRegistered : Bool
  deriving DecidableEq, Repr

/-- SendMessageOutcome is what the caller observes: a returned snapshot, a
thrown `ChatGPTError` (tagged with its throw site), the silent
`undefined` return that falls out of the loop, or fuel exhaustion of the
embedding (never reached by the theorems' scripts). -/
inductive SendMessageOutcome where
  | success (s : Snapshot)
  | thrown (site : ThrowSite) (e : ChatErrorBody)
  | undefinedReturn
  | outOfFuel
  deriving DecidableEq, Repr

/-- SendMessageCtx scripts one `sendMessage` call: the markdown flag and
`markdownToText` transform, and the successive outcomes of the
`getIsAuthenticated` and `evaluate` calls, indexed by how many times each
has already run.  `resetSession` is modelled as always completing (its
exceptions are swallowed by the surrounding try/catch anyway) and
`refreshSession` as always succeeding; both are counted. -/
structure SendMessageCtx where
  markdown : Bool
  mdText : List Char → List Char
  authResults : Nat → Bool
  evalResults : Nat → EvalResult

/-- cleanupSt embeds `cleanup()`: the handler registration for this
message id is removed. -/
def cleanupSt (st : SendMessageState) : SendMessageState :=
  { st with handlerRegistered := false }

/-- LoopCtl is how one iteration of the loop body concludes: a `return`
or `throw` leaves the loop with an outcome, while `continue` and normal
fall-through proceed to the `while (!result)` condition check with the
updated loop variables. -/
inductive LoopCtl where
  | exit (out : SendMessageOutcome) (st : SendMessageState)
  | toCond (st : SendMessageState) (is401 : Bool) (numTries : Nat) (result : Bool)

/-- evalPhase embeds the `evaluate` call and its outcome dispatch (source
lines 1684-1734): a thrown evaluate increments `numTries` and throws a
wrapped error on the second failure, otherwise retries (leaving `result`
untouched); an error record increments `numTries` and dispatches on its
status code — 401 throws on the second try, else continues with `is401`
set and `result` still holding the truthy error record; a non-403 status
throws without cleanup; a second 403 refreshes the session and throws
without cleanup; a first 403 refreshes, resets `result = null` and
continues; a success snapshot is returned (through `markdownToText` when
markdown output is disabled) after cleanup. -/
def evalPhase (ctx : SendMessageCtx) (st : SendMessageState) (is401 : Bool)
    (numTries : Nat) (result : Bool) : LoopCtl :=
  let st1 := { st with evalCalls := st.evalCalls + 1 }
  match ctx.evalResults st.evalCalls with
  | EvalResult.evalThrow e =>
    if numTries + 1 ≥ 2 then
      LoopCtl.exit (SendMessageOutcome.thrown ThrowSite.evalCatch
        { message := e.str, statusCode := e.responseStatusCode,
          statusText := e.responseStatusText }) (cleanupSt st1)
    else LoopCtl.toCond st1 is401 (numTries + 1) result
  | EvalResult.errorResult body =>
    if body.statusCode = some 401 then
      if numTries + 1 ≥ 2 then
        LoopCtl.exit (SendMessageOutcome.thrown ThrowSite.err401 body)
          (cleanupSt st1)
      else LoopCtl.toCond st1 true (numTries + 1) true
    else if body.statusCode ≠ some 403 then
      LoopCtl.exit (SendMessageOutcome.thrown ThrowSite.errOther body) st1
    else if numTries + 1 ≥ 2 then
      LoopCtl.exit (SendMessageOutcome.thrown ThrowSite.err403Final body)
        { st1 with refreshCalls := st1.refreshCalls + 1 }
    else
      LoopCtl.toCond { st1 with refreshCalls := st1.refreshCalls + 1 } is401
        (numTries + 1) false
  | EvalResult.success s =>
    LoopCtl.exit (SendMessageOutcome.success
      (if ctx.markdown then s else { s with response := ctx.mdText s.response }))
      (cleanupSt st1)

/-- reAuth embeds the re-authentication block (source lines 1667-1683):
`resetSession` runs with its errors swallowed, then a failing
`getIsAuthenticated` throws the `Not signed in` error (statusCode 401)
after cleanup, and a passing one proceeds to the evaluate phase. -/
def reAuth (ctx : SendMessageCtx) (st : SendMessageState) (is401 : Bool)
    (numTries : Nat) (result : Bool) : LoopCtl :=
  let st1 := { st with resetCalls := st.resetCalls + 1 }
  if ctx.authResults st1.authCalls then
    evalPhase ctx { st1 with authCalls := st1.authCalls + 1 } is401 numTries result
  else
    LoopCtl.exit (SendMessageOutcome.thrown ThrowSite.notSignedIn
      { message := "Not signed in", statusCode := some 401, statusText := none })
      (cleanupSt { st1 with authCalls := st1.authCalls + 1 })

/-- sendMessageBody is one iteration of the loop body: the
`if (is401 || !await this.getIsAuthenticated())` guard short-circuits, so
`getIsAuthenticated` is not consulted when `is401` is already set. -/
def sendMessageBody (ctx : SendMessageCtx) (st : SendMessageState)
    (is401 : Bool) (numTries : Nat) (result : Bool) : LoopCtl :=
  if is401 then
    reAuth ctx st is401 numTries result
  else if ctx.authResults st.authCalls then
    evalPhase ctx { st with authCalls := st.authCalls + 1 } is401 numTries result
  else
    reAuth ctx { st with authCalls := st.authCalls + 1 } is401 numTries result

/-- sendMessageLoop runs the `do ... while (!result)` loop on fuel: after
each body iteration that reaches the condition check, a truthy `result`
exits the loop, after which the trailing `cleanup()` runs and the function
returns `undefined` (source lines 1735-1737). -/
def sendMessageLoop (ctx : SendMessageCtx) :
    Nat → SendMessageState → Bool → Nat → Bool →
    SendMessageOutcome × SendMessageState
  | 0, st, _, _, _ => (SendMessageOutcome.outOfFuel, st)
  | fuel + 1, st, is401, numTries, result =>
    match sendMessageBody ctx st is401 numTries result with
    | LoopCtl.exit out st2 => (out, st2)
    | LoopCtl.toCond st2 is2 n2 r2 =>
      if r2 then (SendMessageOutcome.undefinedReturn, cleanupSt st2)
      else sendMessageLoop ctx fuel st2 is2 n2 r2

/-- sendMessage embeds `ChatGPTAPIBrowser.sendMessage`: the handler is
registered when an `onProgress` callback was supplied, then the loop runs
with `result` uninitialised (falsy), `numTries = 0` and `is401 = false`. -/
def sendMessage (ctx : SendMessageCtx) (fuel : Nat) (hasOnProgress : Bool) :
    SendMessageOutcome × SendMessageState :=
  sendMessageLoop ctx fuel ⟨0, 0, 0, 0, hasOnProgress⟩ false 0 false

/-- err401body is the 401 error record returned by a scripted evaluate. -/
def err401body : ChatErrorBody :=
  { message := "ChatGPTAPI error 401", statusCode := some 401,
    statusText := some "Unauthorized" }

/-- ctxC2 scripts the first C2 scenario: the first evaluate returns a 401
error record, every later one would succeed. -/
def ctxC2 : SendMessageCtx :=
  { markdown := true,
    mdText := fun l => l,
    authResults := fun _ => true,
    evalResults := fun n =>
      if n = 0 then EvalResult.errorResult err401body
      else EvalResult.success ⟨"hi".toList, some "c".toList, some "m".toList⟩ }

/-- ctxC2b scripts the second C2 scenario: every evaluate returns a 401
error record. -/
def ctxC2b : SendMessageCtx :=
  { ctxC2 with evalResults := fun _ => EvalResult.errorResult err401body }

/-- ctxC2throw scripts a control run: the first evaluate throws, the
second succeeds. -/
def ctxC2throw : SendMessageCtx :=
  { ctxC2 with evalResults := fun n =>
      if n = 0 then EvalResult.evalThrow { str := "Error: page crashed" }
      else EvalResult.success ⟨"hi".toList, some "c".toList, some "m".toList⟩ }

/-- Claim C2 (code bug): a 401 error result does not lead to one
re-authentication and one retry — it makes `sendMessage` silently return
`undefined` after a single attempt.  The 401 branch runs `continue`
without resetting `result`, so the `while (!result)` check sees the
truthy error record and exits the loop (the sibling 403 branch does reset
`result = null`).  The first run shows 401-then-success: the outcome is
the undefined return with exactly one evaluate, no `resetSession`, no
`refreshSession` (one `getIsAuthenticated`); the second shows that two
consecutive 401s likewise never reach a second attempt, so no typed auth
error is surfaced either; the third is a control: for a thrown evaluate
the loop does retry, returning the success of the second attempt. -/
theorem sendMessage_401_no_retry :
    sendMessage ctxC2 10 true =
      (SendMessageOutcome.undefinedReturn, ⟨1, 0, 0, 1, false⟩) ∧
    sendMessage ctxC2b 10 true =
      (SendMessageOutcome.undefinedReturn, ⟨1, 0, 0, 1, false⟩) ∧
    sendMessage ctxC2throw 10 true =
      (SendMessageOutcome.success ⟨"hi".toList, some "c".toList, some "m".toList⟩,
        ⟨2, 0, 0, 2, false⟩) := by
  decide

theorem sendMessageBody_registered (ctx : SendMessageCtx)
    (st : SendMessageState) (is401 : Bool) (numTries : Nat) (result : Bool) :
    (∀ out st2, sendMessageBody ctx st is401 numTries result =
        LoopCtl.exit out st2 →
      (∀ s, out = SendMessageOutcome.success s →
        st2.handlerRegistered = false) ∧
      out ≠ SendMessageOutcome.undefinedReturn ∧
      out ≠ SendMessageOutcome.outOfFuel ∧
      (∀ site e, out = SendMessageOutcome.thrown site e →
        ((site = ThrowSite.errOther ∨ site = ThrowSite.err403Final) →
          st2.handlerRegistered = st.handlerRegistered) ∧
        ((site = ThrowSite.notSignedIn ∨ site = ThrowSite.evalCatch ∨
            site = ThrowSite.err401) → st2.handlerRegistered = false))) ∧
    (∀ st2 i2 n2 r2, sendMessageBody ctx st is401 numTries result =
        LoopCtl.toCond st2 i2 n2 r2 →
      st2.handlerRegistered = st.handlerRegistered) := by
  constructor
  · intro out st2 hB
    unfold sendMessageBody reAuth evalPhase at hB
    dsimp only at hB
    repeat' split at hB
    all_goals cases hB
    all_goals simp [cleanupSt]
  · intro st2 i2 n2 r2 hB
    unfold sendMessageBody reAuth evalPhase at hB
    dsimp only at hB
    repeat' split at hB
    all_goals cases hB
    all_goals rfl

theorem sendMessageLoop_registered (ctx : SendMessageCtx) (fuel : Nat) :
    ∀ (st : SendMessageState) (is401 : Bool) (numTries : Nat) (result : Bool),
    (∀ s, (sendMessageLoop ctx fuel st is401 numTries result).1 =
        SendMessageOutcome.success s →
      (sendMessageLoop ctx fuel st is401 numTries result).2.handlerRegistered =
        false) ∧
    ((sendMessageLoop ctx fuel st is401 numTries result).1 =
        SendMessageOutcome.undefinedReturn →
      (sendMessageLoop ctx fuel st is401 numTries result).2.handlerRegistered =
        false) ∧
    (∀ site e, (sendMessageLoop ctx fuel st is401 numTries result).1 =
        SendMessageOutcome.thrown site e →
      ((site = ThrowSite.errOther ∨ site = ThrowSite.err403Final) →
        (sendMessageLoop ctx fuel st is401 numTries result).2.handlerRegistered =
          st.handlerRegistered) ∧
      ((site = ThrowSite.notSignedIn ∨ site = ThrowSite.evalCatch ∨
          site = ThrowSite.err401) →
        (sendMessageLoop ctx fuel st is401 numTries result).2.handlerRegistered =
          false)) := by
  induction fuel with
  | zero =>
    intro st i n r
    refine ⟨?_, ?_, ?_⟩ <;> simp [sendMessageLoop]
  | succ fuel ih =>
    intro st i n r
    rcases hB : sendMessageBody ctx st i n r with ⟨out, st2⟩ | ⟨st2, i2, n2, r2⟩
    · have hrun : sendMessageLoop ctx (fuel + 1) st i n r = (out, st2) := by
        simp only [sendMessageLoop, hB]
      obtain ⟨h1, h2, _, h4⟩ :=
        (sendMessageBody_registered ctx st i n r).1 out st2 hB
      rw [hrun]
      exact ⟨h1, fun h => absurd h h2, h4⟩
    · have hregs : st2.handlerRegistered = st.handlerRegistered :=
        (sendMessageBody_registered ctx st i n r).2 st2 i2 n2 r2 hB
      by_cases hr2 : r2 = true
      · have hrun : sendMessageLoop ctx (fuel + 1) st i n r =
            (SendMessageOutcome.undefinedReturn, cleanupSt st2) := by
          simp [sendMessageLoop, hB, hr2]
        rw [hrun]
        refine ⟨?_, ?_, ?_⟩
        · intro s h
          cases h
        · intro _
          rfl
        · intro site e h
          cases h
      · have hrun : sendMessageLoop ctx (fuel + 1) st i n r =
            sendMessageLoop ctx fuel st2 i2 n2 r2 := by
          simp [sendMessageLoop, hB, hr2]
        rw [hrun]
        obtain ⟨g1, g2, g3⟩ := ih st2 i2 n2 r2
        exact ⟨g1, g2, fun site e h =>
          ⟨fun hs => ((g3 site e h).1 hs).trans hregs, (g3 site e h).2⟩⟩

/-- Claim C4 (amended): the progress-handler registration is removed on
the successful return, on the `Not signed in` auth-failure throw, on the
second-evaluate-throw error, on the second-consecutive-401 throw and on
the silent undefined return falling out of the loop — but it is NOT
removed on the fatal non-401/403 typed error throw (source line 1718) nor
on the second-consecutive-403 typed error throw (source line 1721): on
those two exit paths the registry retains the entry for the message id
(it equals whatever it was at registration time). -/
theorem sendMessage_handler_cleanup (ctx : SendMessageCtx) (fuel : Nat)
    (hasOnProgress : Bool) :
    (∀ s, (sendMessage ctx fuel hasOnProgress).1 =
        SendMessageOutcome.success s →
      (sendMessage ctx fuel hasOnProgress).2.handlerRegistered = false) ∧
    ((sendMessage ctx fuel hasOnProgress).1 =
        SendMessageOutcome.undefinedReturn →
      (sendMessage ctx fuel hasOnProgress).2.handlerRegistered = false) ∧
    (∀ site e, (sendMessage ctx fuel hasOnProgress).1 =
        SendMessageOutcome.thrown site e →
      ((site = ThrowSite.errOther ∨ site = ThrowSite.err403Final) →
        (sendMessage ctx fuel hasOnProgress).2.handlerRegistered =
          hasOnProgress) ∧
      ((site = ThrowSite.notSignedIn ∨ site = ThrowSite.evalCatch ∨
          site = ThrowSite.err401) →
        (sendMessage ctx fuel hasOnProgress).2.handlerRegistered = false)) :=
  sendMessageLoop_registered ctx fuel ⟨0, 0, 0, 0, hasOnProgress⟩ false 0 false

/-- err500body is a non-401/403 error record (an internal server error). -/
def err500body : ChatErrorBody :=
  { message := "ChatGPTAPI error 500", statusCode := some 500,
    statusText := some "Internal Server Error" }

/-- ctxC4 scripts every evaluate returning the 500 error record. -/
def ctxC4 : SendMessageCtx :=
  { ctxC2 with evalResults := fun _ => EvalResult.errorResult err500body }

/-- Claim C4 counterexample: the claim as stated — the registration is
removed on every exit path — is false: with a progress handler registered,
a fatal non-401/403 error is thrown while the registry still retains the
handler entry. -/
theorem sendMessage_cleanup_missing_on_fatal_error :
    (sendMessage ctxC4 10 true).1 =
      SendMessageOutcome.thrown ThrowSite.errOther err500body ∧
    (sendMessage ctxC4 10 true).2.handlerRegistered = true := by
  decide

/-- Claim C4 witness instances: the amended theorem applied to a
successful run (handler removed) and to the fatal non-401/403 error run
(handler retained). -/
theorem sendMessage_handler_cleanup_witness :
    (sendMessage ctxC2throw 10 true).2.handlerRegistered = false ∧
    (sendMessage ctxC4 10 true).2.handlerRegistered = true := by
  constructor
  · exact (sendMessage_handler_cleanup ctxC2throw 10 true).1
      ⟨"hi".toList, some "c".toList, some "m".toList⟩ (by decide)
  · exact ((sendMessage_handler_cleanup ctxC4 10 true).2.2 ThrowSite.errOther
      err500body (by decide)).1 (Or.inl rfl)

/-! ### Credential cache -/

/-- Modelled from the spec: the external `expiry-map` dependency (not part
of this repository's sources) is described as a single-slot, time-bounded
cache — `set(value)` stores with expiry `now + ttl`, overwriting any prior
entry; `get()` lazily returns the value only while the current time is
before its expiry, empty otherwise; `delete()` explicitly invalidates.
Only the single key `KEY_ACCESS_TOKEN` is ever used, so the model keeps
one slot holding the value and the time it was stored. -/
structure ExpiryMapModel where
  ttl : Nat
  entry : Option (List Char × Nat)
  deriving DecidableEq, Repr

/-- Modelled from the spec: `set` stores the value at the current time,
overwriting any prior entry. -/
def ExpiryMapModel.set (m : ExpiryMapModel) (v : List Char) (now : Nat) :
    ExpiryMapModel :=
  { m with entry := some (v, now) }

/-- Modelled from the spec: `get` returns the stored value only while the
current time is strictly before `setTime + ttl`, empty otherwise. -/
def ExpiryMapModel.get (m : ExpiryMapModel) (now : Nat) : Option (List Char) :=
  match m.entry with
  | some (v, t) => if now < t + m.ttl then some v else none
  | none => none

/-- Modelled from the spec: `delete` invalidates the slot. -/
def ExpiryMapModel.del (m : ExpiryMapModel) : ExpiryMapModel :=
  { m with entry := none }

/-- refreshSessionCacheCheck embeds the cache-consulting prefix of
`ChatGPTAPI.refreshSession` (source lines 779-783): the cached access
token is returned early when it is truthy (an empty string is falsy and
falls through to the network refresh, like a cache miss). -/
def refreshSessionCacheCheck (m : ExpiryMapModel) (now : Nat) :
    Option (List Char) :=
  match m.get now with
  | some tok => if tok.isEmpty then none else some tok
  | none => none

/-- Claim C9: the credential cache's `get` never returns an entry whose
expiry has passed — a returned entry was always stored less than `ttl`
ago; once `ttl` has elapsed since the last `set` with no intervening
write, `get` returns empty, and consequently `refreshSession`'s
early-return path never serves a cached access token older than the
time-to-live: whenever it serves a token, that token was stored at some
instant less than `ttl` before now. -/
theorem credential_cache_expiry (m : ExpiryMapModel) (v : List Char)
    (tset now : Nat) :
    ((ExpiryMapModel.set m v tset).get now ≠ none → now < tset + m.ttl) ∧
    (tset + m.ttl ≤ now →
      (ExpiryMapModel.set m v tset).get now = none ∧
      refreshSessionCacheCheck (ExpiryMapModel.set m v tset) now = none) ∧
    (∀ tok, refreshSessionCacheCheck m now = some tok →
      ∃ t, m.entry = some (tok, t) ∧ now < t + m.ttl) := by
  refine ⟨?_, ?_, ?_⟩
  · intro h
    by_contra hlt
    apply h
    unfold ExpiryMapModel.get ExpiryMapModel.set
    dsimp only
    rw [if_neg hlt]
  · intro hle
    have hget : (ExpiryMapModel.set m v tset).get now = none := by
      unfold ExpiryMapModel.get ExpiryMapModel.set
      dsimp only
      rw [if_neg (by omega)]
    exact ⟨hget, by unfold refreshSessionCacheCheck; rw [hget]⟩
  · intro tok h
    unfold refreshSessionCacheCheck at h
    rcases hget : m.get now with _ | tok2
    · simp only [hget] at h
      cases h
    · simp only [hget] at h
      unfold ExpiryMapModel.get at hget
      rcases hent : m.entry with _ | ⟨v2, t2⟩
      · simp only [hent] at hget
        cases hget
      · simp only [hent] at hget
        by_cases hlt : now < t2 + m.ttl
        · rw [if_pos hlt] at hget
          injection hget with hv2
          by_cases hemp : tok2.isEmpty
          · rw [if_pos hemp] at h
            cases h
          · rw [if_neg hemp] at h
            injection h with htok
            exact ⟨t2, by rw [hv2, htok], hlt⟩
        · rw [if_neg hlt] at hget
          cases hget

/-- Claim C9 witness: a token stored at time 0 with a 10-tick ttl is
served at time 9 and gone at time 10. -/
theorem credential_cache_expiry_witness :
    (ExpiryMapModel.set ⟨10, none⟩ "tok".toList 0).get 10 = none ∧
    refreshSessionCacheCheck (ExpiryMapModel.set ⟨10, none⟩ "tok".toList 0) 10 =
      none ∧
    refreshSessionCacheCheck (ExpiryMapModel.set ⟨10, none⟩ "tok".toList 0) 9 =
      some "tok".toList ∧
    (∃ t, (ExpiryMapModel.set ⟨10, none⟩ "tok".toList 0).entry =
      some ("tok".toList, t) ∧ 9 < t + 10) := by
  refine ⟨(credential_cache_expiry ⟨10, none⟩ "tok".toList 0 10).2.1
      (by decide) |>.1,
    (credential_cache_expiry ⟨10, none⟩ "tok".toList 0 10).2.1
      (by decide) |>.2, by decide, ?_⟩
  exact (credential_cache_expiry (ExpiryMapModel.set ⟨10, none⟩ "tok".toList 0)
    "x".toList 0 9).2.2 "tok".toList (by decide)
